import Mathlib

/-!
# Verification of the temperature-export pipeline of SHAFT-HEAT-TRANSFER

A shallow embedding of `src/extract_temperature.py`: the coordinate cache,
node-set resolution, the frame-extraction loop of `export_temperatures`, and
the CSV writer fan-out, together with theorems settling the specification
claims about them.

Modelling conventions:
* Step times and field values are floating-point in the source, but the
  source never performs arithmetic on them — it only copies and compares
  them — so they are modelled as rationals, for which those operations
  agree with any ordered field of readings.
* Python dicts are modelled as insertion-ordered association lists
  (`alistGet` / `alistSet`), matching dict lookup/overwrite semantics.
* The Abaqus `odbAccess` layer is an external collaborator; its query
  interface (steps, frames, field outputs, `getSubset`, node sets,
  instances) is modelled as plain data carried by the `Odb` structure,
  with `FieldOutput.subsetOf` as the opaque region-restriction query.
* File-system effects (`openOdb`, `open(path, "w")`, `writer.writerow`,
  `close`) are recorded as an event trace; `runFs` interprets the trace
  with truncate-on-open ("w" mode) semantics.
-/

set_option linter.unusedVariables false

namespace ShaftHeat

/-! ## Association lists modelling Python dicts -/

/-- Dict lookup: first binding for the key (keys are unique by construction,
matching Python dict semantics). -/
def alistGet {α β : Type} [DecidableEq α] : List (α × β) → α → Option β
  | [], _ => none
  | (k', v) :: rest, k => if k = k' then some v else alistGet rest k

/-- Dict assignment `d[k] = v`: overwrite in place if the key exists,
otherwise append at the end (insertion order, as Python dicts keep). -/
def alistSet {α β : Type} [DecidableEq α] : List (α × β) → α → β → List (α × β)
  | [], k, v => [(k, v)]
  | (k', v') :: rest, k, v =>
    if k = k' then (k, v) :: rest else (k', v') :: alistSet rest k v

/-! ## Data model of the archive (the Archive Reader interface) -/

/-- A 3-D coordinate triple `(x, y, z)` as read from the archive. -/
abbrev Coordinates := ℚ × ℚ × ℚ

/-- One node of an instance: `node.label` and `node.coordinates`. -/
structure OdbNode where
  label : Int
  coordinates : Coordinates

/-- A part instance of the root assembly: `instance.name`, `instance.nodes`. -/
structure OdbInstance where
  name : String
  nodes : List OdbNode

/-- One entry of a field-output subset, exposing `value.instance.name`,
`value.nodeLabel` and the scalar `value.data`. -/
structure FieldValue where
  instanceName : String
  nodeLabel : Int
  data : ℚ

/-- A field output of a frame.  `subsetAll` is `getSubset(position=NODAL)`;
`subsetOf r` is `getSubset(region=r, position=NODAL)` for the node set
named `r`, kept opaque as a query function of the external archive. -/
structure FieldOutput where
  subsetAll : List FieldValue
  subsetOf : String → List FieldValue

instance : Inhabited FieldOutput := ⟨⟨[], fun _ => []⟩⟩

/-- One frame of a step: `frame.frameValue` (the step time) and the
`frame.fieldOutputs` catalog keyed by field-variable name. -/
structure OdbFrame where
  frameValue : ℚ
  fieldOutputs : List (String × FieldOutput)

instance : Inhabited OdbFrame := ⟨⟨0, []⟩⟩

/-- A step: its ordered sequence of frames. -/
structure OdbStep where
  frames : List OdbFrame

/-- The opened archive: `odb.steps`, `odb.rootAssembly.instances.values()`
and the name catalog of `odb.rootAssembly.nodeSets`. -/
structure Odb where
  steps : List (String × OdbStep)
  instances : List OdbInstance
  nodeSets : List String

/-! ## Records, file-system events, errors -/

/-- One CSV cell, keeping the Python type written by `writer.writerow`. -/
inductive Cell
  | nat (n : Nat)
  | int (i : Int)
  | str (s : String)
  | rat (q : ℚ)
deriving DecidableEq

/-- One record written by `csv.writer.writerow`. -/
abbrev Record := List Cell

/-- An observable file-system / archive-handle effect of the run. -/
inductive FsEvent
  | openOdb
  | closeOdb
  | openFile (path : String)
  | closeFile (path : String)
  | write (path : String) (rec : Record)
deriving DecidableEq

/-- A fatal error of the run: `ValueError`, `SystemExit(msg)`, or the
`KeyError` raised by indexing the coordinate cache with a missing key. -/
inductive ExportError
  | valueError (msg : String)
  | systemExit (msg : String)
  | keyError (key : String)
deriving DecidableEq

/-! ## Helper functions of the script -/

/-- `", ".join l` -/
def joinComma : List String → String
  | [] => ""
  | [s] => s
  | s :: rest => s ++ ", " ++ joinComma rest

/-- Lexicographic-by-code-point comparison of character lists, the order
Python's `sorted` uses on strings. -/
def charListLe : List Char → List Char → Bool
  | [], _ => true
  | _ :: _, [] => false
  | a :: as, b :: bs => if a < b then true else if b < a then false else charListLe as bs

/-- `s <= t` on strings by code points. -/
def strLe (s t : String) : Bool := charListLe s.data t.data

/-- Insert into a sorted list of strings. -/
def insertSorted (s : String) : List String → List String
  | [] => [s]
  | t :: ts => if strLe s t then s :: t :: ts else t :: insertSorted s ts

/-- Python's `sorted` on a list of strings. -/
def sortStrings (l : List String) : List String := l.foldr insertSorted []

/-- `os.sep` (POSIX). -/
def osSep : String := "/"

/-- Index of the last occurrence of a character in a list, if any. -/
def lastIdxOf (c : Char) (l : List Char) : Option Nat :=
  ((l.enum.filter fun p => p.2 = c).map Prod.fst).getLast?

/-- `os.path.splitext` on the character list: split at the last dot that
comes after the last separator, unless the basename up to that dot is all
dots (leading dots of a hidden file are not an extension). -/
def splitextList (l : List Char) : List Char × List Char :=
  let sepIdx : Int := match lastIdxOf '/' l with | none => -1 | some i => i
  let dotIdx : Int := match lastIdxOf '.' l with | none => -1 | some i => i
  if dotIdx > sepIdx then
    let nameStart := (sepIdx + 1).toNat
    if (List.range' nameStart (dotIdx.toNat - nameStart)).any
        (fun i => l.getD i '.' ≠ '.') then
      (l.take dotIdx.toNat, l.drop dotIdx.toNat)
    else (l, [])
  else (l, [])

/-- `os.path.splitext` on strings. -/
def splitext (s : String) : String × String :=
  let p := splitextList s.data
  (String.mk p.1, String.mk p.2)

/-- Replace every occurrence of a single character; `str.replace(pat, rep)`
for one-character patterns is exactly this per-character map. -/
def replaceChar (pat rep : Char) (s : String) : String :=
  String.mk (s.data.map fun c => if c = pat then rep else c)

/-- `set_name.replace(os.sep, "_").replace(" ", "_")` — the split-mode
region-name sanitization; `os.sep` ("/") and " " are single characters, so
the two replaces are two per-character maps in sequence. -/
def sanitizeName (s : String) : String :=
  replaceChar ' ' '_' (replaceChar '/' '_' s)

/-- `_build_coordinate_cache`: per-instance map from node label to
coordinates, built by one traversal of each instance's nodes. -/
abbrev CoordCache := List (String × List (Int × Coordinates))

/-- Inner loop of `_build_coordinate_cache` over one instance's nodes. -/
def buildCoordMap (nodes : List OdbNode) : List (Int × Coordinates) :=
  nodes.foldl (fun m n => alistSet m n.label n.coordinates) []

/-- `_build_coordinate_cache(instances)`. -/
def buildCoordinateCache (instances : List OdbInstance) : CoordCache :=
  instances.foldl (fun c inst => alistSet c inst.name (buildCoordMap inst.nodes)) []

/-- The message of the unknown-node-set `SystemExit`. -/
def nodeSetErrMsg (setName : String) (catalog : List String) : String :=
  "Node set " ++ "'" ++ setName ++ "'" ++ " not found in the ODB. Available sets: "
    ++ joinComma (sortStrings catalog)

/-- `_resolve_node_sets`: check each requested name against the catalog in
request order, failing with `SystemExit` at the first missing one. -/
def resolveNodeSets (catalog : List String) : List String → Except ExportError (List String)
  | [] => .ok []
  | s :: rest =>
    if s ∈ catalog then
      (resolveNodeSets catalog rest).map (s :: ·)
    else
      .error (.systemExit (nodeSetErrMsg s catalog))

/-- The message of the unknown-step `SystemExit`. -/
def stepErrMsg (stepName odbPath : String) (steps : List String) : String :=
  "Step " ++ "'" ++ stepName ++ "'" ++ " not found in ODB " ++ "'" ++ odbPath ++ "'"
    ++ ". Available steps: " ++ joinComma (sortStrings steps)

/-- The message of the missing-field `SystemExit` for a frame. -/
def missingFieldMsg (fieldVar : String) (frameIndex : Nat) (stepName : String) : String :=
  "Field " ++ "'" ++ fieldVar ++ "'" ++ " not stored in frame " ++ toString frameIndex
    ++ " of step " ++ "'" ++ stepName ++ "'" ++ "."

/-- The header row written by `_open_writer` for every sink. -/
def headerRecord (fieldVar : String) : Record :=
  [.str "frame_index", .str "step_time", .str "node_set", .str "instance",
   .str "node_label", .str "x", .str "y", .str "z", .str fieldVar]

/-- `_open_writer(path, header)` as its observable effects: open the file in
truncating write mode and write the header as the first record. -/
def openWriterEvents (path : String) (hdr : Record) : List FsEvent :=
  [.openFile path, .write path hdr]

/-- The data row built at lines 142-154 of the source for one field value. -/
def rowRecord (frameIndex : Nat) (t : ℚ) (regionName instName : String)
    (label : Int) (c : Coordinates) (v : ℚ) : Record :=
  [.nat frameIndex, .rat t, .str regionName, .str instName, .int label,
   .rat c.1, .rat c.2.1, .rat c.2.2, .rat v]

/-- `coord_cache[instance_name][value.nodeLabel]`: the two dict indexings,
each raising `KeyError` on a missing key. -/
def lookupCoords (cache : CoordCache) (instName : String) (label : Int) :
    Except ExportError Coordinates :=
  match alistGet cache instName with
  | none => .error (.keyError instName)
  | some m =>
    match alistGet m label with
    | none => .error (.keyError (toString label))
    | some c => .ok c

/-! ## The frame filter (lines 114-121) -/

/-- What the loop body decides for one frame before field extraction:
`skip` is `continue`, `stop` is `break`, `process` reaches field
extraction. -/
inductive FrameAction
  | skip
  | stop
  | process
deriving DecidableEq

/-- `start_time is not None and current_time < start_time` -/
def belowStart (startT : Option ℚ) (t : ℚ) : Bool :=
  match startT with
  | none => false
  | some s => decide (t < s)

/-- `end_time is not None and current_time > end_time` -/
def aboveEnd (endT : Option ℚ) (t : ℚ) : Bool :=
  match endT with
  | none => false
  | some e => decide (e < t)

/-- `frame_index % frame_stride` is truthy (nonzero), line 115. -/
def strideSkip (stride : Int) (frameIndex : Nat) : Bool :=
  decide ((frameIndex : Int) % stride ≠ 0)

/-- Lines 115-121 of the source: stride test on the raw index, then the
start-time skip, then the end-time break. -/
def frameAction (stride : Int) (startT endT : Option ℚ) (frameIndex : Nat) (t : ℚ) :
    FrameAction :=
  if strideSkip stride frameIndex then .skip
  else if belowStart startT t then .skip
  else if aboveEnd endT t then .stop
  else .process

/-- The frame indices that reach field extraction, following the loop's
control flow from position `i0` over the remaining frame times. -/
def processedFrom (stride : Int) (startT endT : Option ℚ) :
    List ℚ → Nat → List Nat
  | [], _ => []
  | t :: ts, i =>
    match frameAction stride startT endT i t with
    | .skip => processedFrom stride startT endT ts (i + 1)
    | .stop => []
    | .process => i :: processedFrom stride startT endT ts (i + 1)

/-! ## The writer fan-out (Output Router) -/

/-- The `writer_handles` dict: sink key to the path its handle writes to. -/
abbrev Sinks := List (String × String)

/-- The two `get_writer` closures of the source: single shared sink, or
split mode carrying the precomputed base and extension. -/
inductive WriterMode
  | single (path : String)
  | split (base ext : String)

/-- Result of `get_writer`: possibly-extended handles, the effects of a
lazy `_open_writer`, and the path the returned writer writes to. -/
structure WriterOut where
  sinks : Sinks
  events : List FsEvent
  path : String

/-- `get_writer(set_name)`: in single mode the one shared writer; in split
mode look up the handle, lazily creating it at the sanitized path with the
header written at creation. -/
def getWriter (mode : WriterMode) (hdr : Record) (name : String) (sinks : Sinks) :
    WriterOut :=
  match mode with
  | .single path => ⟨sinks, [], path⟩
  | .split base ext =>
    match alistGet sinks name with
    | some p => ⟨sinks, [], p⟩
    | none =>
      let path := base ++ "__" ++ sanitizeName name ++ ext
      ⟨alistSet sinks name path, openWriterEvents path hdr, path⟩

/-! ## The extraction loop -/

/-- Result of a piece of the extraction loop: the handles afterwards, the
events it emitted, and the error that aborted it, if any. -/
structure EmitOut where
  sinks : Sinks
  events : List FsEvent
  err : Option ExportError

/-- Lines 138-154: for each value of a region's subset, look up its cached
coordinates (a `KeyError` aborts), obtain the region's writer and write the
row. -/
def processValues (mode : WriterMode) (hdr : Record) (cache : CoordCache)
    (frameIndex : Nat) (t : ℚ) (regionName : String) :
    List FieldValue → Sinks → EmitOut
  | [], sinks => ⟨sinks, [], none⟩
  | v :: vs, sinks =>
    match lookupCoords cache v.instanceName v.nodeLabel with
    | .error e => ⟨sinks, [], some e⟩
    | .ok c =>
      let w := getWriter mode hdr regionName sinks
      let rest := processValues mode hdr cache frameIndex t regionName vs w.sinks
      ⟨rest.sinks,
       w.events
         ++ [.write w.path (rowRecord frameIndex t regionName v.instanceName v.nodeLabel c v.data)]
         ++ rest.events,
       rest.err⟩

/-- Line 137: iterate the `(region_name, subset)` pairs of one frame. -/
def processRegions (mode : WriterMode) (hdr : Record) (cache : CoordCache)
    (frameIndex : Nat) (t : ℚ) :
    List (String × List FieldValue) → Sinks → EmitOut
  | [], sinks => ⟨sinks, [], none⟩
  | (name, vals) :: rest, sinks =>
    let r1 := processValues mode hdr cache frameIndex t name vals sinks
    match r1.err with
    | some e => ⟨r1.sinks, r1.events, some e⟩
    | none =>
      let r2 := processRegions mode hdr cache frameIndex t rest r1.sinks
      ⟨r2.sinks, r1.events ++ r2.events, r2.err⟩

/-- Lines 129-135: the pairs `region_iter` yields — one per resolved node
set in resolution order, or the single `"ALL"` pseudo-region when the
resolved list is `None` or empty (Python truthiness of `regions`). -/
def regionIter (regions : Option (List String)) (field : FieldOutput) :
    List (String × List FieldValue) :=
  match regions with
  | some (r :: rs) => (r :: rs).map fun ns => (ns, field.subsetOf ns)
  | _ => [("ALL", field.subsetAll)]

/-- Lines 114-154: the frame loop from index `i0`, filtering by
`frameAction`, failing on a missing field variable, and otherwise emitting
the rows of every region of the frame. -/
def processFrames (mode : WriterMode) (hdr : Record) (cache : CoordCache)
    (stride : Int) (startT endT : Option ℚ) (regions : Option (List String))
    (fieldVar stepName : String) :
    List OdbFrame → Nat → Sinks → EmitOut
  | [], _, sinks => ⟨sinks, [], none⟩
  | f :: fs, i, sinks =>
    match frameAction stride startT endT i f.frameValue with
    | .skip =>
      processFrames mode hdr cache stride startT endT regions fieldVar stepName fs (i + 1) sinks
    | .stop => ⟨sinks, [], none⟩
    | .process =>
      match alistGet f.fieldOutputs fieldVar with
      | none => ⟨sinks, [], some (.systemExit (missingFieldMsg fieldVar i stepName))⟩
      | some field =>
        let r1 := processRegions mode hdr cache i f.frameValue (regionIter regions field) sinks
        match r1.err with
        | some e => ⟨r1.sinks, r1.events, some e⟩
        | none =>
          let r2 := processFrames mode hdr cache stride startT endT regions fieldVar stepName
            fs (i + 1) r1.sinks
          ⟨r2.sinks, r1.events ++ r2.events, r2.err⟩

/-! ## The top-level `export_temperatures` -/

/-- The configuration surface of `export_temperatures`. -/
structure Config where
  odbPath : String
  outputCsv : String
  stepName : String
  nodeSets : Option (List String)
  fieldVariable : String
  startTime : Option ℚ
  endTime : Option ℚ
  frameStride : Int
  splitByNodeSet : Bool

/-- Lines 85-87: `regions` stays `None` unless `node_sets` is truthy
(present and nonempty), in which case every name is resolved. -/
def resolveStage (odb : Odb) (cfg : Config) : Except ExportError (Option (List String)) :=
  match cfg.nodeSets with
  | some (s :: rest) => (resolveNodeSets odb.nodeSets (s :: rest)).map some
  | _ => .ok none

/-- The base of the split-mode output paths (`os.path.splitext`). -/
def splitBase (cfg : Config) : String := (splitext cfg.outputCsv).1

/-- The extension of the split-mode output paths, defaulting to `.csv`. -/
def splitExt (cfg : Config) : String :=
  let e := (splitext cfg.outputCsv).2
  if e = "" then ".csv" else e

/-- Lines 95-112: which `get_writer` the closure environment holds. -/
def writerMode (cfg : Config) : WriterMode :=
  if cfg.splitByNodeSet then .split (splitBase cfg) (splitExt cfg)
  else .single cfg.outputCsv

/-- The split-mode path for a region name: the base output path with `__`
plus the sanitized region name inserted before the extension. -/
def regionPath (cfg : Config) (name : String) : String :=
  splitBase cfg ++ "__" ++ sanitizeName name ++ splitExt cfg

/-- Outcome of a run: the final `writer_handles`, the full ordered event
trace, and the error that terminated the run, if any. -/
structure RunResult where
  sinks : Sinks
  trace : List FsEvent
  err : Option ExportError

/-- The sink setup of the `try` block (lines 95-112): split mode starts
with no handles; single mode opens the shared writer at the configured
path up front, keyed `"__all__"`. -/
def exportInit (cfg : Config) : Sinks × List FsEvent :=
  match writerMode cfg with
  | .split _ _ => ([], [])
  | .single path =>
    ([("__all__", path)], openWriterEvents path (headerRecord cfg.fieldVariable))

/-- The frame loop of the `try` block over the step's frames, starting from
frame index 0 with the initial handles of the chosen writer mode. -/
def exportLoop (odb : Odb) (cfg : Config) (step : OdbStep)
    (regions : Option (List String)) : EmitOut :=
  processFrames (writerMode cfg) (headerRecord cfg.fieldVariable)
    (buildCoordinateCache odb.instances) cfg.frameStride cfg.startTime cfg.endTime
    regions cfg.fieldVariable cfg.stepName step.frames 0 (exportInit cfg).1

/-- `export_temperatures` (lines 60-158).  The stride check precedes the
archive open; the unknown-step and unknown-node-set failures happen after
the open but before the `try` block, so they emit no close events; every
termination of the `try` body runs the `finally`, closing all handles in
insertion order and then the archive. -/
def exportTemperatures (odb : Odb) (cfg : Config) : RunResult :=
  if cfg.frameStride < 1 then
    ⟨[], [], some (.valueError "frame_stride must be >= 1")⟩
  else
    match alistGet odb.steps cfg.stepName with
    | none =>
      ⟨[], [.openOdb],
       some (.systemExit (stepErrMsg cfg.stepName cfg.odbPath (odb.steps.map Prod.fst)))⟩
    | some step =>
      match resolveStage odb cfg with
      | .error e => ⟨[], [.openOdb], some e⟩
      | .ok regions =>
        let r := exportLoop odb cfg step regions
        ⟨r.sinks,
         [FsEvent.openOdb] ++ (exportInit cfg).2 ++ r.events
           ++ r.sinks.map (fun kp => FsEvent.closeFile kp.2) ++ [FsEvent.closeOdb],
         r.err⟩

/-! ## Basic lemmas about the dict model -/

theorem alistGet_set_self {α β : Type} [DecidableEq α] (m : List (α × β)) (k : α) (v : β) :
    alistGet (alistSet m k v) k = some v := by
  induction m with
  | nil => simp [alistGet, alistSet]
  | cons p rest ih =>
    obtain ⟨k', v'⟩ := p
    by_cases h : k = k'
    · simp [alistSet, alistGet, h]
    · simp [alistSet, alistGet, h, ih]

theorem alistGet_set_ne {α β : Type} [DecidableEq α] (m : List (α × β)) (k k' : α) (v : β)
    (h : k ≠ k') : alistGet (alistSet m k' v) k = alistGet m k := by
  induction m with
  | nil => simp [alistGet, alistSet, h]
  | cons p rest ih =>
    obtain ⟨k₀, v₀⟩ := p
    by_cases h0 : k' = k₀
    · subst h0; simp [alistSet, alistGet, h]
    · by_cases h1 : k = k₀ <;> simp [alistSet, alistGet, h0, h1, ih]

theorem alistSet_absent {α β : Type} [DecidableEq α] (m : List (α × β)) (k : α) (v : β)
    (h : alistGet m k = none) : alistSet m k v = m ++ [(k, v)] := by
  induction m with
  | nil => simp [alistSet]
  | cons p rest ih =>
    obtain ⟨k₀, v₀⟩ := p
    by_cases h1 : k = k₀
    · simp [alistGet, h1] at h
    · simp [alistGet, h1] at h
      simp [alistSet, h1, ih h]

theorem getD_mem {α : Type} (d : α) (l : List α) (i : Nat) (h : i < l.length) :
    l.getD i d ∈ l := by
  rw [List.getD_eq_getElem l d h]; exact List.getElem_mem h

/-! ## The frame filter: characterizations of `frameAction` -/

theorem frameAction_process_iff (stride : Int) (sT eT : Option ℚ) (i : Nat) (t : ℚ) :
    frameAction stride sT eT i t = .process ↔
      strideSkip stride i = false ∧ belowStart sT t = false ∧ aboveEnd eT t = false := by
  by_cases h1 : strideSkip stride i <;> by_cases h2 : belowStart sT t <;>
    by_cases h3 : aboveEnd eT t <;> simp [frameAction, h1, h2, h3]

theorem frameAction_stop_iff (stride : Int) (sT eT : Option ℚ) (i : Nat) (t : ℚ) :
    frameAction stride sT eT i t = .stop ↔
      strideSkip stride i = false ∧ belowStart sT t = false ∧ aboveEnd eT t = true := by
  by_cases h1 : strideSkip stride i <;> by_cases h2 : belowStart sT t <;>
    by_cases h3 : aboveEnd eT t <;> simp [frameAction, h1, h2, h3]

theorem belowStart_true_iff (sT : Option ℚ) (t : ℚ) :
    belowStart sT t = true ↔ ∃ s, sT = some s ∧ t < s := by
  cases sT <;> simp [belowStart]

theorem belowStart_false_le (s t : ℚ) (h : belowStart (some s) t = false) : s ≤ t := by
  simpa [belowStart, not_lt] using h

theorem aboveEnd_false_le (e t : ℚ) (h : aboveEnd (some e) t = false) : t ≤ e := by
  simpa [aboveEnd, not_lt] using h

/-! ## C1: the processed-index set -/

/-- The membership predicate of the set the spec claims: stride on the raw
index, intersected with the inclusive time window (each bound applied only
when set). -/
def claimKeep (stride : Int) (startT endT : Option ℚ) (i : Nat) (t : ℚ) : Bool :=
  decide ((i : Int) % stride = 0) &&
  (match startT with | none => true | some s => decide (s ≤ t)) &&
  (match endT with | none => true | some e => decide (t ≤ e))

/-- The claimed processed set, written from the spec's words:
`{ i : i mod k == 0 }` intersected with the time-window predicate on the
frame's time. -/
def specProcessed (stride : Int) (startT endT : Option ℚ) (times : List ℚ) : List Nat :=
  (List.range times.length).filter fun i => claimKeep stride startT endT i (times.getD i 0)

theorem claimKeep_eq (stride : Int) (sT eT : Option ℚ) (i : Nat) (t : ℚ) :
    claimKeep stride sT eT i t =
      (!strideSkip stride i && !belowStart sT t && !aboveEnd eT t) := by
  have hd : ∀ a b : ℚ, (!decide (a < b)) = decide (b ≤ a) := fun a b => by
    rw [← decide_not]; exact decide_eq_decide.mpr not_lt
  cases sT <;> cases eT <;>
    simp [claimKeep, strideSkip, belowStart, aboveEnd, decide_not, hd]

theorem processedFrom_mem_ge (stride : Int) (sT eT : Option ℚ) :
    ∀ (ts : List ℚ) (i0 j : Nat), j ∈ processedFrom stride sT eT ts i0 → i0 ≤ j
  | [], i0, j, h => by simp [processedFrom] at h
  | t :: ts, i0, j, h => by
    unfold processedFrom at h
    cases hact : frameAction stride sT eT i0 t <;> rw [hact] at h
    · exact le_trans (Nat.le_succ i0) (processedFrom_mem_ge stride sT eT ts (i0+1) j h)
    · simp at h
    · rcases List.mem_cons.mp h with h | h
      · omega
      · exact le_trans (Nat.le_succ i0) (processedFrom_mem_ge stride sT eT ts (i0+1) j h)

theorem processedFrom_mem_filters (stride : Int) (sT eT : Option ℚ) :
    ∀ (ts : List ℚ) (i0 j : Nat), j ∈ processedFrom stride sT eT ts i0 →
      strideSkip stride j = false ∧ belowStart sT (ts.getD (j - i0) 0) = false ∧
        aboveEnd eT (ts.getD (j - i0) 0) = false
  | [], i0, j, h => by simp [processedFrom] at h
  | t :: ts, i0, j, h => by
    unfold processedFrom at h
    cases hact : frameAction stride sT eT i0 t <;> rw [hact] at h
    · have hge := processedFrom_mem_ge stride sT eT ts (i0+1) j h
      have := processedFrom_mem_filters stride sT eT ts (i0+1) j h
      have hs : j - i0 = (j - (i0+1)) + 1 := by omega
      rw [hs, List.getD_cons_succ]
      exact this
    · simp at h
    · rcases List.mem_cons.mp h with h | h
      · subst h
        simp only [Nat.sub_self, List.getD_cons_zero]
        exact (frameAction_process_iff stride sT eT j t).mp hact
      · have hge := processedFrom_mem_ge stride sT eT ts (i0+1) j h
        have := processedFrom_mem_filters stride sT eT ts (i0+1) j h
        have hs : j - i0 = (j - (i0+1)) + 1 := by omega
        rw [hs, List.getD_cons_succ]
        exact this

theorem processedFrom_eq_filter (stride : Int) (sT eT : Option ℚ) :
    ∀ (ts : List ℚ) (i0 : Nat), List.Chain' (· ≤ ·) ts →
      processedFrom stride sT eT ts i0 =
        (List.range' i0 ts.length).filter
          (fun i => claimKeep stride sT eT i (ts.getD (i - i0) 0))
  | [], i0, _ => by simp [processedFrom]
  | t :: ts, i0, h => by
    have htail : List.Chain' (· ≤ ·) ts := h.tail
    have ih := processedFrom_eq_filter stride sT eT ts (i0+1) htail
    have hshift :
        (List.range' (i0+1) ts.length).filter
            (fun i => claimKeep stride sT eT i ((t :: ts).getD (i - i0) 0)) =
          (List.range' (i0+1) ts.length).filter
            (fun i => claimKeep stride sT eT i (ts.getD (i - (i0+1)) 0)) := by
      apply List.filter_congr
      intro i hi
      have h1 : i0 + 1 ≤ i := (List.mem_range'_1.mp hi).1
      have h2 : i - i0 = (i - (i0+1)) + 1 := by omega
      rw [h2, List.getD_cons_succ]
    rw [List.length_cons, List.range'_succ i0 ts.length 1, List.filter_cons]
    have hz : (t :: ts).getD (i0 - i0) 0 = t := by
      simp only [Nat.sub_self, List.getD_cons_zero]
    cases hact : frameAction stride sT eT i0 t
    · -- skip: the head fails stride or start, so claimKeep is false at i0
      have hk : claimKeep stride sT eT i0 ((t :: ts).getD (i0 - i0) 0) = false := by
        rw [hz, claimKeep_eq]
        unfold frameAction at hact
        by_cases h1 : strideSkip stride i0
        · simp [h1]
        · by_cases h2 : belowStart sT t
          · simp [h1, h2]
          · by_cases h3 : aboveEnd eT t <;> simp [h1, h2, h3] at hact
      simp only [processedFrom, hact, hk, Bool.false_eq_true, if_false]
      rw [ih, hshift]
    · -- stop: the head exceeds end_time; monotonicity kills the whole range
      obtain ⟨h1, h2, h3⟩ := (frameAction_stop_iff stride sT eT i0 t).mp hact
      obtain ⟨e, he⟩ : ∃ e, eT = some e := by
        cases eT with
        | none => simp [aboveEnd] at h3
        | some e => exact ⟨e, rfl⟩
      subst he
      have het : e < t := by simpa [aboveEnd] using h3
      have hk : claimKeep stride sT (some e) i0 ((t :: ts).getD (i0 - i0) 0) = false := by
        rw [hz, claimKeep_eq]
        simp [aboveEnd, het]
      simp only [processedFrom, hact, hk, Bool.false_eq_true, if_false]
      symm
      rw [List.filter_eq_nil_iff]
      intro i hi
      have h1' : i0 + 1 ≤ i := (List.mem_range'_1.mp hi).1
      have h2' : i < i0 + 1 + ts.length := (List.mem_range'_1.mp hi).2
      have hlen : i - i0 - 1 < ts.length := by omega
      have hsub : i - i0 = (i - i0 - 1) + 1 := by omega
      have hmem : ts.getD (i - i0 - 1) 0 ∈ ts := getD_mem 0 ts _ hlen
      have hle : t ≤ ts.getD (i - i0 - 1) 0 :=
        (List.pairwise_cons.mp (List.chain'_iff_pairwise.mp h)).1 _ hmem
      simp only [claimKeep_eq, Bool.and_eq_true, Bool.not_eq_true', Bool.and_assoc]
      rw [hsub, List.getD_cons_succ]
      intro hcontra
      have hup : aboveEnd (some e) (ts.getD (i - i0 - 1) 0) = true := by
        simp only [aboveEnd, decide_eq_true_eq]; linarith
      rcases hcontra with ⟨-, -, hc3⟩
      rw [hc3] at hup
      exact Bool.false_ne_true hup
    · -- process: the head passes everything
      obtain ⟨h1, h2, h3⟩ := (frameAction_process_iff stride sT eT i0 t).mp hact
      have hk : claimKeep stride sT eT i0 ((t :: ts).getD (i0 - i0) 0) = true := by
        rw [hz, claimKeep_eq, h1, h2, h3]
        simp
      simp only [processedFrom, hact, hk, if_true]
      rw [ih, hshift]

/-- C1: for every step whose frame times are monotonically non-decreasing,
every `frame_stride >= 1` and any optional start/end times, the frame
indices that reach field extraction are exactly
`{ i : i mod k == 0 }` intersected with the time window, the stride being
tested on the raw index independently of the time tests. -/
theorem c1_processed_set (stride : Int) (sT eT : Option ℚ) (times : List ℚ)
    (hstride : 1 ≤ stride) (hmono : List.Chain' (· ≤ ·) times) :
    processedFrom stride sT eT times 0 = specProcessed stride sT eT times := by
  rw [processedFrom_eq_filter stride sT eT times 0 hmono]
  unfold specProcessed
  rw [List.range_eq_range']
  apply List.filter_congr
  intro i _
  simp

theorem c1_processed_set_witness :
    (1 ≤ (3 : Int)) ∧ List.Chain' (· ≤ ·) ([0,1,2,3,4,5,6,7,8,9] : List ℚ) ∧
      processedFrom 3 none none ([0,1,2,3,4,5,6,7,8,9] : List ℚ) 0 =
        specProcessed 3 none none ([0,1,2,3,4,5,6,7,8,9] : List ℚ) ∧
      specProcessed 3 none none ([0,1,2,3,4,5,6,7,8,9] : List ℚ) = [0, 3, 6, 9] :=
  ⟨by decide, by norm_num [List.chain'_cons],
   c1_processed_set 3 none none _ (by decide) (by norm_num [List.chain'_cons]), by decide⟩

/-! ## C3: the end-time short-circuit -/

theorem processedFrom_not_mem_after (stride : Int) (sT : Option ℚ) (e : ℚ) :
    ∀ (ts : List ℚ) (i0 j i : Nat), i0 ≤ j → j - i0 < ts.length →
      strideSkip stride j = false → e < ts.getD (j - i0) 0 → j ≤ i →
      i ∉ processedFrom stride sT (some e) ts i0
  | [], i0, j, i, hij, hlen, _, _, _ => by simp at hlen
  | t :: ts, i0, j, i, hij, hlen, hstr, hgt, hji => by
    by_cases hj : j = i0
    · subst hj
      rw [Nat.sub_self, List.getD_cons_zero] at hgt
      by_cases hb : belowStart sT t
      · -- skipped via start_time; but then the whole window is empty
        obtain ⟨s, hs, hts⟩ := (belowStart_true_iff sT t).mp hb
        subst hs
        have hact : frameAction stride (some s) (some e) j t = .skip := by
          simp [frameAction, hb]
        intro hmem
        unfold processedFrom at hmem
        rw [hact] at hmem
        obtain ⟨-, h2, h3⟩ :=
          processedFrom_mem_filters stride (some s) (some e) ts (j+1) i hmem
        have hsle := belowStart_false_le _ _ h2
        have hele := aboveEnd_false_le _ _ h3
        linarith
      · -- the break itself
        have hact : frameAction stride sT (some e) j t = .stop := by
          simp [frameAction, hstr, hb, aboveEnd, hgt]
        intro hmem
        unfold processedFrom at hmem
        rw [hact] at hmem
        simp at hmem
    · simp only [List.length_cons] at hlen
      have hj' : i0 + 1 ≤ j := by omega
      have hlen' : j - (i0+1) < ts.length := by omega
      have hsub : j - i0 = (j - (i0+1)) + 1 := by omega
      rw [hsub, List.getD_cons_succ] at hgt
      have ih := processedFrom_not_mem_after stride sT e ts (i0+1) j i hj' hlen' hstr hgt hji
      intro hmem
      unfold processedFrom at hmem
      cases hact : frameAction stride sT (some e) i0 t <;> rw [hact] at hmem
      · exact ih hmem
      · simp at hmem
      · rcases List.mem_cons.mp hmem with h | h
        · omega
        · exact ih h

/-- C3: with `end_time` set, a stride-qualifying frame whose time strictly
exceeds it means no frame from that point on reaches field extraction —
even a hypothetical later frame whose time lies back inside the window —
whereas a frame whose time is strictly below `start_time` yields a
per-frame `continue` (never the `break`), processing going on with the
next frame. -/
theorem c3_end_short_circuit (stride : Int) (sT : Option ℚ) (e : ℚ) :
    (∀ (ts : List ℚ) (j i : Nat), j < ts.length → strideSkip stride j = false →
        e < ts.getD j 0 → j ≤ i → i ∉ processedFrom stride sT (some e) ts 0)
    ∧ (∀ (i : Nat) (t s : ℚ), t < s →
        frameAction stride (some s) (some e) i t ≠ .stop)
    ∧ (∀ (eT : Option ℚ) (ts : List ℚ) (i : Nat) (t : ℚ),
        frameAction stride sT eT i t = .skip →
        processedFrom stride sT eT (t :: ts) i = processedFrom stride sT eT ts (i + 1)) := by
  refine ⟨?_, ?_, ?_⟩
  · intro ts j i hlen hstr hgt hji
    exact processedFrom_not_mem_after stride sT e ts 0 j i (Nat.zero_le j)
      (by simpa using hlen) hstr (by simpa using hgt) hji
  · intro i t s hts
    by_cases h1 : strideSkip stride i <;> simp [frameAction, h1, belowStart, hts]
  · intro eT ts i t hact
    simp [processedFrom, hact]

theorem c3_end_short_circuit_witness :
    ((2 : Nat) < ([0, 2, 5, 3] : List ℚ).length) ∧
      strideSkip 1 2 = false ∧ (4 : ℚ) < ([0, 2, 5, 3] : List ℚ).getD 2 0 ∧
      (3 : Nat) ∉ processedFrom 1 none (some 4) ([0, 2, 5, 3] : List ℚ) 0 ∧
      processedFrom 1 none (some 4) ([0, 2, 5, 3] : List ℚ) 0 = [0, 1] :=
  ⟨by decide, by decide, by decide,
   (c3_end_short_circuit 1 none 4).1 [0, 2, 5, 3] 2 3 (by decide) (by decide)
     (by decide) (by decide),
   by decide⟩

/-! ## Records of the trace -/

/-- The records written over a stretch of the trace, in order. -/
def writeRecords (evs : List FsEvent) : List Record :=
  evs.filterMap fun e => match e with | .write _ r => some r | _ => none

/-- Data rows start with the integer frame index; header rows start with a
string cell, so this separates the two. -/
def isDataRecord (r : Record) : Bool :=
  match r with
  | Cell.nat _ :: _ => true
  | _ => false

/-- The data rows written over a stretch of the trace, in order. -/
def dataRecords (evs : List FsEvent) : List Record :=
  (writeRecords evs).filter isDataRecord

theorem writeRecords_append (a b : List FsEvent) :
    writeRecords (a ++ b) = writeRecords a ++ writeRecords b :=
  List.filterMap_append a b _

theorem dataRecords_append (a b : List FsEvent) :
    dataRecords (a ++ b) = dataRecords a ++ dataRecords b := by
  simp [dataRecords, writeRecords_append, List.filter_append]

/-- `flatMap` only depends on the function's values on members. -/
theorem flatMapCongr {α β : Type} (l : List α) (f g : α → List β)
    (h : ∀ x ∈ l, f x = g x) : l.flatMap f = l.flatMap g := by
  induction l with
  | nil => rfl
  | cons a l ih =>
    rw [List.flatMap_cons, List.flatMap_cons, h a (List.mem_cons_self a l),
      ih fun x hx => h x (List.mem_cons_of_mem a hx)]

/-! ## The spec-side row and header -/

/-- The row the spec describes for one surviving value: frame index, step
time, region name, instance name, node label, the cached x, y, z
coordinates for that instance and label, and the scalar value — in exactly
that order. -/
def specRow (cache : CoordCache) (frameIndex : Nat) (t : ℚ) (regionName : String)
    (v : FieldValue) : Record :=
  let c := (alistGet ((alistGet cache v.instanceName).getD []) v.nodeLabel).getD (0, 0, 0)
  [Cell.nat frameIndex, Cell.rat t, Cell.str regionName, Cell.str v.instanceName,
   Cell.int v.nodeLabel, Cell.rat c.1, Cell.rat c.2.1, Cell.rat c.2.2, Cell.rat v.data]

/-- The header row the spec requires of every sink: exactly the columns
frame_index, step_time, node_set, instance, node_label, x, y, z, and the
requested field variable's name. -/
def specHeader (fieldVar : String) : Record :=
  [.str "frame_index", .str "step_time", .str "node_set", .str "instance",
   .str "node_label", .str "x", .str "y", .str "z", .str fieldVar]

theorem specHeader_eq_headerRecord (fieldVar : String) :
    specHeader fieldVar = headerRecord fieldVar := rfl

/-- The rows one processed frame contributes: the frame's field output
restricted to each region in region order, one spec row per value. -/
def frameRowsSpec (cache : CoordCache) (regions : Option (List String)) (fieldVar : String)
    (j : Nat) (f : OdbFrame) : List Record :=
  match alistGet f.fieldOutputs fieldVar with
  | none => []
  | some field =>
    (regionIter regions field).flatMap fun nv => nv.2.map (specRow cache j f.frameValue nv.1)

theorem rowRecord_eq_specRow (cache : CoordCache) (i : Nat) (t : ℚ) (region : String)
    (v : FieldValue) (c : Coordinates)
    (h : lookupCoords cache v.instanceName v.nodeLabel = .ok c) :
    rowRecord i t region v.instanceName v.nodeLabel c v.data = specRow cache i t region v := by
  cases h1 : alistGet cache v.instanceName with
  | none => simp only [lookupCoords, h1] at h; exact Except.noConfusion h
  | some m =>
    cases h2 : alistGet m v.nodeLabel with
    | none => simp only [lookupCoords, h1, h2] at h; exact Except.noConfusion h
    | some c' =>
      simp only [lookupCoords, h1, h2, Except.ok.injEq] at h
      subst h
      simp [specRow, rowRecord, h1, h2]

/-! ## Opens are immediately followed by the header write -/

/-- Every `openFile` in the trace is immediately followed by a write of the
header record to the same path (the sink's first record at creation). -/
def opensHeadered (hdr : Record) : List FsEvent → Bool
  | [] => true
  | FsEvent.openFile p :: rest =>
    decide (rest.head? = some (FsEvent.write p hdr)) && opensHeadered hdr rest
  | _ :: rest => opensHeadered hdr rest

theorem opensHeadered_append (hdr : Record) :
    ∀ (a b : List FsEvent), opensHeadered hdr a = true → opensHeadered hdr b = true →
      opensHeadered hdr (a ++ b) = true
  | [], b, _, hb => by simpa
  | e :: a, b, ha, hb => by
    rw [List.cons_append]
    cases e with
    | openFile p =>
      unfold opensHeadered at ha ⊢
      simp only [Bool.and_eq_true, decide_eq_true_eq] at ha ⊢
      obtain ⟨h1, h2⟩ := ha
      refine ⟨?_, opensHeadered_append hdr a b h2 hb⟩
      cases a with
      | nil => simp at h1
      | cons x a' => simpa using h1
    | openOdb => exact opensHeadered_append hdr a b ha hb
    | closeOdb => exact opensHeadered_append hdr a b ha hb
    | closeFile p => exact opensHeadered_append hdr a b ha hb
    | write p r => exact opensHeadered_append hdr a b ha hb

theorem opensHeadered_closes (hdr : Record) (l : Sinks) :
    opensHeadered hdr (l.map fun kp => FsEvent.closeFile kp.2) = true := by
  induction l with
  | nil => rfl
  | cons kp l ih => simpa [opensHeadered] using ih

theorem getWriter_opensHeadered (mode : WriterMode) (hdr : Record) (name : String)
    (sinks : Sinks) : opensHeadered hdr (getWriter mode hdr name sinks).events = true := by
  unfold getWriter
  cases mode with
  | single p => rfl
  | split base ext =>
    cases h : alistGet sinks name <;> simp [opensHeadered, openWriterEvents, h]

theorem processValues_opensHeadered (mode : WriterMode) (hdr : Record) (cache : CoordCache)
    (i : Nat) (t : ℚ) (name : String) :
    ∀ (vs : List FieldValue) (sinks : Sinks),
      opensHeadered hdr (processValues mode hdr cache i t name vs sinks).events = true
  | [], sinks => rfl
  | v :: vs, sinks => by
    cases hc : lookupCoords cache v.instanceName v.nodeLabel with
    | error e => simp only [processValues, hc]; rfl
    | ok c =>
      simp only [processValues, hc]
      apply opensHeadered_append
      · apply opensHeadered_append
        · exact getWriter_opensHeadered mode hdr name sinks
        · rfl
      · exact processValues_opensHeadered mode hdr cache i t name vs _

theorem processRegions_opensHeadered (mode : WriterMode) (hdr : Record) (cache : CoordCache)
    (i : Nat) (t : ℚ) :
    ∀ (rs : List (String × List FieldValue)) (sinks : Sinks),
      opensHeadered hdr (processRegions mode hdr cache i t rs sinks).events = true
  | [], sinks => rfl
  | (name, vals) :: rest, sinks => by
    cases he : (processValues mode hdr cache i t name vals sinks).err with
    | some e =>
      simp only [processRegions, he]
      exact processValues_opensHeadered mode hdr cache i t name vals sinks
    | none =>
      simp only [processRegions, he]
      apply opensHeadered_append
      · exact processValues_opensHeadered mode hdr cache i t name vals sinks
      · exact processRegions_opensHeadered mode hdr cache i t rest _

theorem processFrames_opensHeadered (mode : WriterMode) (hdr : Record) (cache : CoordCache)
    (stride : Int) (sT eT : Option ℚ) (regions : Option (List String))
    (fieldVar stepName : String) :
    ∀ (frames : List OdbFrame) (i0 : Nat) (sinks : Sinks),
      opensHeadered hdr
        (processFrames mode hdr cache stride sT eT regions fieldVar stepName
          frames i0 sinks).events = true
  | [], _, sinks => rfl
  | f :: fs, i0, sinks => by
    cases hact : frameAction stride sT eT i0 f.frameValue
    · simp only [processFrames, hact]
      exact processFrames_opensHeadered mode hdr cache stride sT eT regions fieldVar stepName
        fs (i0+1) sinks
    · simp only [processFrames, hact]; rfl
    · cases hf : alistGet f.fieldOutputs fieldVar with
      | none => simp only [processFrames, hact, hf]; rfl
      | some field =>
        cases he : (processRegions mode hdr cache i0 f.frameValue
            (regionIter regions field) sinks).err with
        | some e =>
          simp only [processFrames, hact, hf, he]
          exact processRegions_opensHeadered mode hdr cache i0 f.frameValue
            (regionIter regions field) sinks
        | none =>
          simp only [processFrames, hact, hf, he]
          apply opensHeadered_append
          · exact processRegions_opensHeadered mode hdr cache i0 f.frameValue
              (regionIter regions field) sinks
          · exact processFrames_opensHeadered mode hdr cache stride sT eT regions
              fieldVar stepName fs (i0+1) _

/-! ## Data-record characterization of successful runs -/

theorem getWriter_dataRecords (mode : WriterMode) (hdr : Record) (name : String)
    (sinks : Sinks) (hhdr : isDataRecord hdr = false) :
    dataRecords (getWriter mode hdr name sinks).events = [] := by
  unfold getWriter
  cases mode with
  | single p => rfl
  | split base ext =>
    cases h : alistGet sinks name <;>
      simp [dataRecords, writeRecords, openWriterEvents, h, hhdr]

theorem processValues_ok (mode : WriterMode) (hdr : Record) (cache : CoordCache)
    (i : Nat) (t : ℚ) (name : String) (hhdr : isDataRecord hdr = false) :
    ∀ (vs : List FieldValue) (sinks : Sinks),
      (processValues mode hdr cache i t name vs sinks).err = none →
      dataRecords (processValues mode hdr cache i t name vs sinks).events =
        vs.map (specRow cache i t name)
  | [], sinks, _ => rfl
  | v :: vs, sinks, h => by
    cases hc : lookupCoords cache v.instanceName v.nodeLabel with
    | error e => simp only [processValues, hc] at h; exact Option.noConfusion h
    | ok c =>
      simp only [processValues, hc] at h ⊢
      rw [dataRecords_append, dataRecords_append]
      rw [getWriter_dataRecords mode hdr name sinks hhdr]
      rw [processValues_ok mode hdr cache i t name hhdr vs _ h]
      rw [List.map_cons]
      rw [rowRecord_eq_specRow cache i t name v c hc]
      simp [dataRecords, writeRecords, isDataRecord, specRow]

theorem processRegions_ok (mode : WriterMode) (hdr : Record) (cache : CoordCache)
    (i : Nat) (t : ℚ) (hhdr : isDataRecord hdr = false) :
    ∀ (rs : List (String × List FieldValue)) (sinks : Sinks),
      (processRegions mode hdr cache i t rs sinks).err = none →
      dataRecords (processRegions mode hdr cache i t rs sinks).events =
        rs.flatMap fun nv => nv.2.map (specRow cache i t nv.1)
  | [], sinks, _ => rfl
  | (name, vals) :: rest, sinks, h => by
    cases he : (processValues mode hdr cache i t name vals sinks).err with
    | some e => simp only [processRegions, he] at h; exact Option.noConfusion h
    | none =>
      simp only [processRegions, he] at h ⊢
      rw [dataRecords_append, List.flatMap_cons]
      rw [processValues_ok mode hdr cache i t name hhdr vals sinks he]
      rw [processRegions_ok mode hdr cache i t hhdr rest _ h]

theorem processFrames_ok (mode : WriterMode) (hdr : Record) (cache : CoordCache)
    (stride : Int) (sT eT : Option ℚ) (regions : Option (List String))
    (fieldVar stepName : String) (hhdr : isDataRecord hdr = false) :
    ∀ (frames : List OdbFrame) (i0 : Nat) (sinks : Sinks),
      (processFrames mode hdr cache stride sT eT regions fieldVar stepName
        frames i0 sinks).err = none →
      dataRecords (processFrames mode hdr cache stride sT eT regions fieldVar stepName
          frames i0 sinks).events =
        (processedFrom stride sT eT (frames.map OdbFrame.frameValue) i0).flatMap
          fun j => frameRowsSpec cache regions fieldVar j (frames.getD (j - i0) default)
  | [], i0, sinks, _ => rfl
  | f :: fs, i0, sinks, h => by
    rw [List.map_cons]
    cases hact : frameAction stride sT eT i0 f.frameValue
    · -- skip
      simp only [processFrames, processedFrom, hact] at h ⊢
      rw [processFrames_ok mode hdr cache stride sT eT regions fieldVar stepName hhdr
        fs (i0+1) sinks h]
      apply flatMapCongr
      intro j hj
      have hge := processedFrom_mem_ge stride sT eT (fs.map OdbFrame.frameValue) (i0+1) j hj
      have hsub : j - i0 = (j - (i0+1)) + 1 := by omega
      rw [hsub, List.getD_cons_succ]
    · simp only [processFrames, processedFrom, hact]
      rfl
    · -- process
      cases hf : alistGet f.fieldOutputs fieldVar with
      | none => simp only [processFrames, hact, hf] at h; exact Option.noConfusion h
      | some field =>
        cases he : (processRegions mode hdr cache i0 f.frameValue
            (regionIter regions field) sinks).err with
        | some e =>
          simp only [processFrames, hact, hf, he] at h; exact Option.noConfusion h
        | none =>
          simp only [processFrames, processedFrom, hact, hf, he] at h ⊢
          rw [dataRecords_append, List.flatMap_cons]
          congr 1
          · rw [processRegions_ok mode hdr cache i0 f.frameValue hhdr
              (regionIter regions field) sinks he]
            simp [frameRowsSpec, hf]
          · rw [processFrames_ok mode hdr cache stride sT eT regions fieldVar stepName hhdr
              fs (i0+1) _ h]
            apply flatMapCongr
            intro j hj
            have hge := processedFrom_mem_ge stride sT eT (fs.map OdbFrame.frameValue) (i0+1) j hj
            have hsub : j - i0 = (j - (i0+1)) + 1 := by omega
            rw [hsub, List.getD_cons_succ]

/-! ## Export-level run shape -/

theorem isDataRecord_headerRecord (fv : String) : isDataRecord (headerRecord fv) = false := rfl

theorem exportTemperatures_eq (odb : Odb) (cfg : Config) (step : OdbStep)
    (regions : Option (List String))
    (hstride : ¬cfg.frameStride < 1)
    (hstep : alistGet odb.steps cfg.stepName = some step)
    (hres : resolveStage odb cfg = .ok regions) :
    exportTemperatures odb cfg =
      ⟨(exportLoop odb cfg step regions).sinks,
       [FsEvent.openOdb] ++ (exportInit cfg).2 ++ (exportLoop odb cfg step regions).events
         ++ (exportLoop odb cfg step regions).sinks.map (fun kp => FsEvent.closeFile kp.2)
         ++ [FsEvent.closeOdb],
       (exportLoop odb cfg step regions).err⟩ := by
  simp only [exportTemperatures, hstep, hres, if_neg hstride]

theorem exportTemperatures_err_none (odb : Odb) (cfg : Config)
    (hok : (exportTemperatures odb cfg).err = none) :
    ¬cfg.frameStride < 1 ∧ ∃ step, alistGet odb.steps cfg.stepName = some step ∧
      ∃ regions, resolveStage odb cfg = .ok regions := by
  by_cases hs : cfg.frameStride < 1
  · simp [exportTemperatures, hs] at hok
  · refine ⟨hs, ?_⟩
    cases hstep : alistGet odb.steps cfg.stepName with
    | none => simp [exportTemperatures, hs, hstep] at hok
    | some step =>
      refine ⟨step, rfl, ?_⟩
      cases hres : resolveStage odb cfg with
      | error e => simp [exportTemperatures, hs, hstep, hres] at hok
      | ok regions => exact ⟨regions, rfl⟩

theorem exportInit_dataRecords (cfg : Config) : dataRecords (exportInit cfg).2 = [] := by
  unfold exportInit
  cases writerMode cfg with
  | split base ext => rfl
  | single path =>
    simp [dataRecords, writeRecords, openWriterEvents, isDataRecord, headerRecord]

theorem dataRecords_closes (l : Sinks) :
    dataRecords (l.map fun kp => FsEvent.closeFile kp.2) = [] := by
  induction l with
  | nil => rfl
  | cons kp l ih => simp [dataRecords, writeRecords]

theorem exportInit_opensHeadered (cfg : Config) :
    opensHeadered (headerRecord cfg.fieldVariable) (exportInit cfg).2 = true := by
  unfold exportInit
  cases writerMode cfg with
  | split base ext => rfl
  | single path => simp [opensHeadered, openWriterEvents]

/-- On a successful run, the data rows of the whole trace are exactly the
spec rows of the processed frames, in loop order. -/
theorem export_dataRecords_spec (odb : Odb) (cfg : Config) (step : OdbStep)
    (regions : Option (List String))
    (hstep : alistGet odb.steps cfg.stepName = some step)
    (hres : resolveStage odb cfg = .ok regions)
    (hok : (exportTemperatures odb cfg).err = none) :
    dataRecords (exportTemperatures odb cfg).trace =
      (processedFrom cfg.frameStride cfg.startTime cfg.endTime
          (step.frames.map OdbFrame.frameValue) 0).flatMap
        fun j => frameRowsSpec (buildCoordinateCache odb.instances) regions
          cfg.fieldVariable j (step.frames.getD j default) := by
  obtain ⟨hstride, -⟩ := exportTemperatures_err_none odb cfg hok
  rw [exportTemperatures_eq odb cfg step regions hstride hstep hres] at hok ⊢
  simp only at hok
  rw [dataRecords_append, dataRecords_append, dataRecords_append, dataRecords_append]
  rw [exportInit_dataRecords, dataRecords_closes]
  have hloop := processFrames_ok (writerMode cfg) (headerRecord cfg.fieldVariable)
    (buildCoordinateCache odb.instances) cfg.frameStride cfg.startTime cfg.endTime
    regions cfg.fieldVariable cfg.stepName (isDataRecord_headerRecord cfg.fieldVariable)
    step.frames 0 (exportInit cfg).1 hok
  rw [exportLoop] at *
  rw [hloop]
  simp [dataRecords, writeRecords]

/-- On every run that reaches the extraction loop, every `openFile` of the
trace is immediately followed by the write of the header record. -/
theorem export_opensHeadered (odb : Odb) (cfg : Config) (step : OdbStep)
    (regions : Option (List String))
    (hstride : ¬cfg.frameStride < 1)
    (hstep : alistGet odb.steps cfg.stepName = some step)
    (hres : resolveStage odb cfg = .ok regions) :
    opensHeadered (headerRecord cfg.fieldVariable) (exportTemperatures odb cfg).trace = true := by
  rw [exportTemperatures_eq odb cfg step regions hstride hstep hres]
  simp only
  apply opensHeadered_append
  apply opensHeadered_append
  apply opensHeadered_append
  apply opensHeadered_append
  · rfl
  · exact exportInit_opensHeadered cfg
  · exact processFrames_opensHeadered _ _ _ _ _ _ _ _ _ _ _ _
  · exact opensHeadered_closes _ _
  · rfl

/-! ## C4: row contents and headers -/

/-- C4: on a successful run, the data rows written are exactly one row per
field value that survived stride and time-window filtering in a region —
each containing, in order, the frame index, the frame's step time, the
region name ("ALL" when no node sets were requested), the value's instance
name, its node label, the cached x, y, z for that instance and label, and
the scalar field value — and every sink's header, written at the sink's
creation, is exactly the columns frame_index, step_time, node_set,
instance, node_label, x, y, z, and the field variable's name. -/
theorem c4_rows_and_headers (odb : Odb) (cfg : Config) (step : OdbStep)
    (regions : Option (List String))
    (hstep : alistGet odb.steps cfg.stepName = some step)
    (hres : resolveStage odb cfg = .ok regions)
    (hok : (exportTemperatures odb cfg).err = none) :
    dataRecords (exportTemperatures odb cfg).trace =
      (processedFrom cfg.frameStride cfg.startTime cfg.endTime
          (step.frames.map OdbFrame.frameValue) 0).flatMap
        (fun j => frameRowsSpec (buildCoordinateCache odb.instances) regions
          cfg.fieldVariable j (step.frames.getD j default))
    ∧ opensHeadered (specHeader cfg.fieldVariable) (exportTemperatures odb cfg).trace = true := by
  obtain ⟨hstride, -⟩ := exportTemperatures_err_none odb cfg hok
  refine ⟨export_dataRecords_spec odb cfg step regions hstep hres hok, ?_⟩
  rw [specHeader_eq_headerRecord]
  exact export_opensHeadered odb cfg step regions hstride hstep hres

/-! ## C7: deterministic row order -/

theorem resolveNodeSets_ok_id (catalog : List String) :
    ∀ (l rs : List String), resolveNodeSets catalog l = .ok rs → rs = l
  | [], rs, h => by
    simp only [resolveNodeSets, Except.ok.injEq] at h
    exact h.symm
  | s :: rest, rs, h => by
    simp only [resolveNodeSets] at h
    by_cases hs : s ∈ catalog
    · rw [if_pos hs] at h
      cases hr : resolveNodeSets catalog rest with
      | error e => rw [hr] at h; exact Except.noConfusion h
      | ok rs' =>
        rw [hr] at h
        simp only [Except.map, Except.ok.injEq] at h
        rw [← h, resolveNodeSets_ok_id catalog rest rs' hr]
    · rw [if_neg hs] at h
      exact Except.noConfusion h

theorem processedFrom_pairwise_lt (stride : Int) (sT eT : Option ℚ) :
    ∀ (ts : List ℚ) (i0 : Nat), List.Pairwise (· < ·) (processedFrom stride sT eT ts i0)
  | [], i0 => by simp [processedFrom]
  | t :: ts, i0 => by
    unfold processedFrom
    cases frameAction stride sT eT i0 t
    · exact processedFrom_pairwise_lt stride sT eT ts (i0+1)
    · simp
    · rw [List.pairwise_cons]
      refine ⟨fun j hj => ?_, processedFrom_pairwise_lt stride sT eT ts (i0+1)⟩
      have := processedFrom_mem_ge stride sT eT ts (i0+1) j hj
      omega

theorem flatMapNilFun {α β : Type} (l : List α) :
    (l.flatMap fun _ => ([] : List β)) = [] := by
  induction l with
  | nil => rfl
  | cons a l ih => simp [List.flatMap_cons, ih]

/-- With a nonempty resolved region list, a processed frame's rows are the
regions' subsets in request order, using the empty default field output
when the frame lacks the field. -/
theorem frameRowsSpec_cons (cache : CoordCache) (r : String) (rs' : List String)
    (fv : String) (j : Nat) (f : OdbFrame) :
    frameRowsSpec cache (some (r :: rs')) fv j f =
      (r :: rs').flatMap fun R =>
        (((alistGet f.fieldOutputs fv).getD default).subsetOf R).map
          (specRow cache j f.frameValue R) := by
  unfold frameRowsSpec regionIter
  cases hf : alistGet f.fieldOutputs fv with
  | none =>
    have hd : ∀ R : String, (default : FieldOutput).subsetOf R = [] := fun R => rfl
    simp [hd]
  | some field =>
    simp [List.flatMap_map]

/-- C7: emitted rows are deterministically ordered.  Node-set resolution
returns the requested names unchanged (request order preserved), the
processed frame indices are strictly increasing, and on a successful run
the data rows are the frames' row blocks concatenated in frame-index order
with, inside each frame, the regions' row blocks concatenated in request
order. -/
theorem c7_row_order (odb : Odb) (cfg : Config) (step : OdbStep) (l : List String)
    (hstep : alistGet odb.steps cfg.stepName = some step)
    (hns : cfg.nodeSets = some l) (hl : l ≠ [])
    (hok : (exportTemperatures odb cfg).err = none) :
    resolveNodeSets odb.nodeSets l = .ok l
    ∧ List.Pairwise (· < ·)
        (processedFrom cfg.frameStride cfg.startTime cfg.endTime
          (step.frames.map OdbFrame.frameValue) 0)
    ∧ dataRecords (exportTemperatures odb cfg).trace =
        (processedFrom cfg.frameStride cfg.startTime cfg.endTime
            (step.frames.map OdbFrame.frameValue) 0).flatMap
          fun j => l.flatMap fun R =>
            (((alistGet (step.frames.getD j default).fieldOutputs
                cfg.fieldVariable).getD default).subsetOf R).map
              (specRow (buildCoordinateCache odb.instances) j
                (step.frames.getD j default).frameValue R) := by
  obtain ⟨s, rest, rfl⟩ := List.exists_cons_of_ne_nil hl
  obtain ⟨hstride, step', hstep', regions, hres⟩ := exportTemperatures_err_none odb cfg hok
  rw [hstep] at hstep'
  injection hstep' with hstep''
  subst hstep''
  have hres' := hres
  simp only [resolveStage, hns] at hres'
  cases hr : resolveNodeSets odb.nodeSets (s :: rest) with
  | error e => rw [hr] at hres'; exact Except.noConfusion hres'
  | ok rs' =>
    rw [hr] at hres'
    simp only [Except.map, Except.ok.injEq] at hres'
    have hid := resolveNodeSets_ok_id odb.nodeSets (s :: rest) rs' hr
    subst hid
    refine ⟨rfl, processedFrom_pairwise_lt _ _ _ _ _, ?_⟩
    have hd := export_dataRecords_spec odb cfg step regions hstep hres hok
    rw [← hres'] at hd
    rw [hd]
    apply flatMapCongr
    intro j hj
    exact frameRowsSpec_cons (buildCoordinateCache odb.instances) s rest
      cfg.fieldVariable j (step.frames.getD j default)

/-! ## Concrete fixtures for witnesses -/

/-- A tiny two-frame archive with two labelled nodes and two node sets. -/
def sampleField : FieldOutput :=
  ⟨[⟨"PART-1", 7, 350⟩, ⟨"PART-1", 8, 351⟩],
   fun r => if r = "B" then [⟨"PART-1", 8, 351⟩]
            else if r = "A" then [⟨"PART-1", 7, 350⟩] else []⟩

def sampleStep : OdbStep :=
  ⟨[⟨0, [("NT11", sampleField)]⟩, ⟨1, [("NT11", sampleField)]⟩]⟩

def sampleOdb : Odb :=
  { steps := [("HeatStep", sampleStep)],
    instances := [⟨"PART-1", [⟨7, (1, 2, 3)⟩, ⟨8, (4, 5, 6)⟩]⟩],
    nodeSets := ["A", "B"] }

def sampleCfg : Config :=
  { odbPath := "j.odb", outputCsv := "out.csv", stepName := "HeatStep",
    nodeSets := some ["B", "A"], fieldVariable := "NT11",
    startTime := none, endTime := none, frameStride := 1, splitByNodeSet := false }

theorem c4_rows_and_headers_witness :
    (alistGet sampleOdb.steps sampleCfg.stepName = some sampleStep)
    ∧ (resolveStage sampleOdb sampleCfg = .ok (some ["B", "A"]))
    ∧ ((exportTemperatures sampleOdb sampleCfg).err = none)
    ∧ (dataRecords (exportTemperatures sampleOdb sampleCfg).trace =
        (processedFrom sampleCfg.frameStride sampleCfg.startTime sampleCfg.endTime
            (sampleStep.frames.map OdbFrame.frameValue) 0).flatMap
          (fun j => frameRowsSpec (buildCoordinateCache sampleOdb.instances) (some ["B", "A"])
            sampleCfg.fieldVariable j (sampleStep.frames.getD j default))
        ∧ opensHeadered (specHeader sampleCfg.fieldVariable)
            (exportTemperatures sampleOdb sampleCfg).trace = true) :=
  ⟨rfl, rfl, by decide,
   c4_rows_and_headers sampleOdb sampleCfg sampleStep (some ["B", "A"])
     rfl rfl (by decide)⟩

theorem c7_row_order_witness :
    (alistGet sampleOdb.steps sampleCfg.stepName = some sampleStep)
    ∧ (sampleCfg.nodeSets = some ["B", "A"]) ∧ (["B", "A"] ≠ ([] : List String))
    ∧ ((exportTemperatures sampleOdb sampleCfg).err = none)
    ∧ (resolveNodeSets sampleOdb.nodeSets ["B", "A"] = .ok ["B", "A"]
       ∧ List.Pairwise (· < ·)
           (processedFrom sampleCfg.frameStride sampleCfg.startTime sampleCfg.endTime
             (sampleStep.frames.map OdbFrame.frameValue) 0)
       ∧ dataRecords (exportTemperatures sampleOdb sampleCfg).trace =
           (processedFrom sampleCfg.frameStride sampleCfg.startTime sampleCfg.endTime
               (sampleStep.frames.map OdbFrame.frameValue) 0).flatMap
             fun j => (["B", "A"] : List String).flatMap fun R =>
               (((alistGet (sampleStep.frames.getD j default).fieldOutputs
                   sampleCfg.fieldVariable).getD default).subsetOf R).map
                 (specRow (buildCoordinateCache sampleOdb.instances) j
                   (sampleStep.frames.getD j default).frameValue R)) :=
  ⟨rfl, rfl, by decide, by decide,
   c7_row_order sampleOdb sampleCfg sampleStep ["B", "A"] rfl rfl (by decide) (by decide)⟩

/-! ## C2: resource cleanup -/

/-- Handles are never dropped: every binding survives the step. -/
def SinksMono (s s' : Sinks) : Prop := ∀ x ∈ s, x ∈ s'

/-- Every file opened over a stretch of trace has its path registered in
the handle dict afterwards. -/
def OpensInSinks (s' : Sinks) (evs : List FsEvent) : Prop :=
  ∀ p, FsEvent.openFile p ∈ evs → ∃ k, (k, p) ∈ s'

theorem opensInSinks_comp (s0 s1 s2 : Sinks) (d1 d2 : List FsEvent)
    (m1 : SinksMono s0 s1) (m2 : SinksMono s1 s2)
    (o1 : OpensInSinks s1 d1) (o2 : OpensInSinks s2 d2) :
    SinksMono s0 s2 ∧ OpensInSinks s2 (d1 ++ d2) := by
  refine ⟨fun x hx => m2 x (m1 x hx), fun p hp => ?_⟩
  rcases List.mem_append.mp hp with h | h
  · obtain ⟨k, hk⟩ := o1 p h
    exact ⟨k, m2 _ hk⟩
  · exact o2 p h

theorem sinksMono_refl (s : Sinks) : SinksMono s s := fun x hx => hx

theorem opensInSinks_nil (s : Sinks) : OpensInSinks s [] := fun p hp => by simp at hp

theorem getWriter_sinks (mode : WriterMode) (hdr : Record) (name : String) (sinks : Sinks) :
    SinksMono sinks (getWriter mode hdr name sinks).sinks ∧
      OpensInSinks (getWriter mode hdr name sinks).sinks
        (getWriter mode hdr name sinks).events := by
  unfold getWriter
  cases mode with
  | single p => exact ⟨sinksMono_refl sinks, opensInSinks_nil sinks⟩
  | split base ext =>
    cases hg : alistGet sinks name with
    | some p => exact ⟨sinksMono_refl sinks, opensInSinks_nil sinks⟩
    | none =>
      simp only
      rw [alistSet_absent sinks name _ hg]
      constructor
      · intro x hx; exact List.mem_append_left _ hx
      · intro q hq
        simp only [openWriterEvents, List.mem_cons, List.not_mem_nil, or_false,
          FsEvent.openFile.injEq] at hq
        rcases hq with hq | hq
        · subst hq
          exact ⟨name, List.mem_append_right _ (by simp)⟩
        · exact FsEvent.noConfusion hq

theorem processValues_sinks (mode : WriterMode) (hdr : Record) (cache : CoordCache)
    (i : Nat) (t : ℚ) (name : String) :
    ∀ (vs : List FieldValue) (sinks : Sinks),
      SinksMono sinks (processValues mode hdr cache i t name vs sinks).sinks ∧
        OpensInSinks (processValues mode hdr cache i t name vs sinks).sinks
          (processValues mode hdr cache i t name vs sinks).events
  | [], sinks => ⟨sinksMono_refl sinks, opensInSinks_nil sinks⟩
  | v :: vs, sinks => by
    cases hc : lookupCoords cache v.instanceName v.nodeLabel with
    | error e =>
      simp only [processValues, hc]
      exact ⟨sinksMono_refl sinks, opensInSinks_nil sinks⟩
    | ok c =>
      simp only [processValues, hc]
      obtain ⟨m1, o1⟩ := getWriter_sinks mode hdr name sinks
      obtain ⟨m2, o2⟩ := processValues_sinks mode hdr cache i t name vs
        (getWriter mode hdr name sinks).sinks
      have omid : OpensInSinks (getWriter mode hdr name sinks).sinks
          [FsEvent.write (getWriter mode hdr name sinks).path
            (rowRecord i t name v.instanceName v.nodeLabel c v.data)] :=
        fun p hp => by simp at hp
      obtain ⟨mA, oA⟩ := opensInSinks_comp _ _ _ _ _ m1
        (sinksMono_refl (getWriter mode hdr name sinks).sinks) o1 omid
      exact opensInSinks_comp _ _ _ _ _ mA m2 oA o2

theorem processRegions_sinks (mode : WriterMode) (hdr : Record) (cache : CoordCache)
    (i : Nat) (t : ℚ) :
    ∀ (rs : List (String × List FieldValue)) (sinks : Sinks),
      SinksMono sinks (processRegions mode hdr cache i t rs sinks).sinks ∧
        OpensInSinks (processRegions mode hdr cache i t rs sinks).sinks
          (processRegions mode hdr cache i t rs sinks).events
  | [], sinks => ⟨sinksMono_refl sinks, opensInSinks_nil sinks⟩
  | (name, vals) :: rest, sinks => by
    obtain ⟨m1, o1⟩ := processValues_sinks mode hdr cache i t name vals sinks
    cases he : (processValues mode hdr cache i t name vals sinks).err with
    | some e =>
      simp only [processRegions, he]
      exact ⟨m1, o1⟩
    | none =>
      simp only [processRegions, he]
      obtain ⟨m2, o2⟩ := processRegions_sinks mode hdr cache i t rest
        (processValues mode hdr cache i t name vals sinks).sinks
      exact opensInSinks_comp _ _ _ _ _ m1 m2 o1 o2

theorem processFrames_sinks (mode : WriterMode) (hdr : Record) (cache : CoordCache)
    (stride : Int) (sT eT : Option ℚ) (regions : Option (List String))
    (fieldVar stepName : String) :
    ∀ (frames : List OdbFrame) (i0 : Nat) (sinks : Sinks),
      SinksMono sinks
        (processFrames mode hdr cache stride sT eT regions fieldVar stepName
          frames i0 sinks).sinks ∧
      OpensInSinks
        (processFrames mode hdr cache stride sT eT regions fieldVar stepName
          frames i0 sinks).sinks
        (processFrames mode hdr cache stride sT eT regions fieldVar stepName
          frames i0 sinks).events
  | [], _, sinks => ⟨sinksMono_refl sinks, opensInSinks_nil sinks⟩
  | f :: fs, i0, sinks => by
    cases hact : frameAction stride sT eT i0 f.frameValue
    · simp only [processFrames, hact]
      exact processFrames_sinks mode hdr cache stride sT eT regions fieldVar stepName
        fs (i0+1) sinks
    · simp only [processFrames, hact]
      exact ⟨sinksMono_refl sinks, opensInSinks_nil sinks⟩
    · cases hf : alistGet f.fieldOutputs fieldVar with
      | none =>
        simp only [processFrames, hact, hf]
        exact ⟨sinksMono_refl sinks, opensInSinks_nil sinks⟩
      | some field =>
        obtain ⟨m1, o1⟩ := processRegions_sinks mode hdr cache i0 f.frameValue
          (regionIter regions field) sinks
        cases he : (processRegions mode hdr cache i0 f.frameValue
            (regionIter regions field) sinks).err with
        | some e =>
          simp only [processFrames, hact, hf, he]
          exact ⟨m1, o1⟩
        | none =>
          simp only [processFrames, hact, hf, he]
          obtain ⟨m2, o2⟩ := processFrames_sinks mode hdr cache stride sT eT regions
            fieldVar stepName fs (i0+1)
            (processRegions mode hdr cache i0 f.frameValue
              (regionIter regions field) sinks).sinks
          exact opensInSinks_comp _ _ _ _ _ m1 m2 o1 o2

theorem exportInit_opensInSinks (cfg : Config) :
    OpensInSinks (exportInit cfg).1 (exportInit cfg).2 := by
  unfold exportInit
  cases writerMode cfg with
  | split base ext => exact opensInSinks_nil []
  | single path =>
    intro p hp
    simp only [openWriterEvents, List.mem_cons, List.not_mem_nil, or_false,
      FsEvent.openFile.injEq] at hp
    rcases hp with hp | hp
    · subst hp; exact ⟨"__all__", by simp⟩
    · exact FsEvent.noConfusion hp

/-- C2 (amended): on every termination that reaches the `try` block of
`export_temperatures` — normal completion, a missing-field error, or a
missing-coordinate error — the archive handle and every opened output sink
are closed before the run terminates; the unknown-step and
unknown-node-set errors are raised before the `try`, so they terminate the
run with the archive handle still open (no sink has been opened yet at
those points). -/
theorem c2_cleanup (odb : Odb) (cfg : Config) (step : OdbStep)
    (regions : Option (List String))
    (hstep : alistGet odb.steps cfg.stepName = some step)
    (hres : resolveStage odb cfg = .ok regions) :
    (FsEvent.openOdb ∈ (exportTemperatures odb cfg).trace →
      FsEvent.closeOdb ∈ (exportTemperatures odb cfg).trace)
    ∧ ∀ p, FsEvent.openFile p ∈ (exportTemperatures odb cfg).trace →
        FsEvent.closeFile p ∈ (exportTemperatures odb cfg).trace := by
  by_cases hstride : cfg.frameStride < 1
  · constructor
    · intro h; simp [exportTemperatures, hstride] at h
    · intro p h; simp [exportTemperatures, hstride] at h
  · rw [exportTemperatures_eq odb cfg step regions hstride hstep hres]
    simp only
    obtain ⟨mL, oL⟩ := processFrames_sinks (writerMode cfg) (headerRecord cfg.fieldVariable)
      (buildCoordinateCache odb.instances) cfg.frameStride cfg.startTime cfg.endTime
      regions cfg.fieldVariable cfg.stepName step.frames 0 (exportInit cfg).1
    constructor
    · intro _
      simp
    · intro p hp
      have hin : ∃ k, (k, p) ∈ (exportLoop odb cfg step regions).sinks := by
        simp only [List.mem_append, List.mem_singleton] at hp
        rcases hp with ((((hp | hp) | hp) | hp) | hp)
        · simp at hp
        · obtain ⟨k, hk⟩ := exportInit_opensInSinks cfg p hp
          exact ⟨k, mL _ hk⟩
        · exact oL p hp
        · rcases List.mem_map.mp hp with ⟨kp, -, hkp⟩
          exact FsEvent.noConfusion hkp
        · exact FsEvent.noConfusion hp
      obtain ⟨k, hk⟩ := hin
      have : FsEvent.closeFile p ∈
          (exportLoop odb cfg step regions).sinks.map fun kp => FsEvent.closeFile kp.2 :=
        List.mem_map.mpr ⟨(k, p), hk, rfl⟩
      simp only [List.mem_append, List.mem_singleton]
      left; right
      exact this

/-- A configuration requesting a step name absent from the sample archive. -/
def missingStepCfg : Config := { sampleCfg with stepName := "Missing" }

/-- C2 as stated is false: the unknown-step error terminates the run after
`openOdb` with no `closeOdb` in the trace. -/
theorem c2_cleanup_counterexample :
    (exportTemperatures sampleOdb missingStepCfg).err.isSome = true
    ∧ FsEvent.openOdb ∈ (exportTemperatures sampleOdb missingStepCfg).trace
    ∧ FsEvent.closeOdb ∉ (exportTemperatures sampleOdb missingStepCfg).trace := by
  refine ⟨rfl, ?_, ?_⟩ <;> decide

theorem c2_cleanup_witness :
    (alistGet sampleOdb.steps sampleCfg.stepName = some sampleStep)
    ∧ (resolveStage sampleOdb sampleCfg = .ok (some ["B", "A"]))
    ∧ ((FsEvent.openOdb ∈ (exportTemperatures sampleOdb sampleCfg).trace →
          FsEvent.closeOdb ∈ (exportTemperatures sampleOdb sampleCfg).trace)
        ∧ ∀ p, FsEvent.openFile p ∈ (exportTemperatures sampleOdb sampleCfg).trace →
            FsEvent.closeFile p ∈ (exportTemperatures sampleOdb sampleCfg).trace) :=
  ⟨rfl, rfl,
   c2_cleanup sampleOdb sampleCfg sampleStep (some ["B", "A"]) rfl rfl⟩

/-! ## C6: unknown node-set failure -/

theorem mem_insertSorted (s x : String) :
    ∀ (l : List String), x ∈ insertSorted s l ↔ x = s ∨ x ∈ l
  | [] => by simp [insertSorted]
  | t :: ts => by
    unfold insertSorted
    by_cases h : strLe s t
    · rw [if_pos h]
      simp [List.mem_cons]
    · rw [if_neg h]
      simp [List.mem_cons, mem_insertSorted s x ts]
      tauto

theorem mem_sortStrings (x : String) : ∀ (l : List String), x ∈ sortStrings l ↔ x ∈ l
  | [] => Iff.rfl
  | s :: rest => by
    show x ∈ insertSorted s (sortStrings rest) ↔ _
    rw [mem_insertSorted, mem_sortStrings x rest]
    simp [List.mem_cons]

theorem resolveNodeSets_error (catalog : List String) (s : String) (post : List String)
    (hs : s ∉ catalog) :
    ∀ (pre : List String), (∀ x ∈ pre, x ∈ catalog) →
      resolveNodeSets catalog (pre ++ s :: post) =
        .error (.systemExit (nodeSetErrMsg s catalog))
  | [], _ => by simp [resolveNodeSets, hs]
  | x :: pre, hpre => by
    have hx : x ∈ catalog := hpre x (by simp)
    simp only [List.cons_append, resolveNodeSets, if_pos hx, List.append_eq]
    rw [resolveNodeSets_error catalog s post hs pre fun y hy => hpre y (by simp [hy])]
    rfl

/-- C6: a requested node-set name absent from the archive's catalog makes
the run fail right after opening the archive — no file opened, no row
written, no frame examined, the trace being just the archive open — with a
`SystemExit` whose message names the first offending set and joins the
sorted catalog, which enumerates exactly the valid names. -/
theorem c6_unknown_node_set (odb : Odb) (cfg : Config) (step : OdbStep)
    (pre post : List String) (s : String)
    (hstride : ¬cfg.frameStride < 1)
    (hstep : alistGet odb.steps cfg.stepName = some step)
    (hns : cfg.nodeSets = some (pre ++ s :: post))
    (hpre : ∀ x ∈ pre, x ∈ odb.nodeSets)
    (hs : s ∉ odb.nodeSets) :
    (exportTemperatures odb cfg).trace = [FsEvent.openOdb]
    ∧ (exportTemperatures odb cfg).err =
        some (.systemExit (nodeSetErrMsg s odb.nodeSets))
    ∧ ∀ x, x ∈ sortStrings odb.nodeSets ↔ x ∈ odb.nodeSets := by
  have hres : resolveStage odb cfg =
      .error (.systemExit (nodeSetErrMsg s odb.nodeSets)) := by
    unfold resolveStage
    rw [hns]
    cases pre with
    | nil =>
      have h := resolveNodeSets_error odb.nodeSets s post hs [] (by simp)
      rw [List.nil_append] at h
      simp only [List.nil_append, List.append_eq, h]
      rfl
    | cons x pre' =>
      have h := resolveNodeSets_error odb.nodeSets s post hs (x :: pre') hpre
      rw [List.cons_append] at h
      simp only [List.cons_append, List.append_eq, h]
      rfl
  refine ⟨?_, ?_, fun x => mem_sortStrings x odb.nodeSets⟩ <;>
    simp [exportTemperatures, if_neg hstride, hstep, hres]

/-- A configuration requesting a node set missing from the sample archive. -/
def ghostCfg : Config := { sampleCfg with nodeSets := some ["GHOST"] }

theorem c6_unknown_node_set_witness :
    (¬ghostCfg.frameStride < 1)
    ∧ (alistGet sampleOdb.steps ghostCfg.stepName = some sampleStep)
    ∧ (ghostCfg.nodeSets = some ([] ++ "GHOST" :: []))
    ∧ ("GHOST" ∉ sampleOdb.nodeSets)
    ∧ ((exportTemperatures sampleOdb ghostCfg).trace = [FsEvent.openOdb]
        ∧ (exportTemperatures sampleOdb ghostCfg).err =
            some (.systemExit (nodeSetErrMsg "GHOST" sampleOdb.nodeSets))
        ∧ ∀ x, x ∈ sortStrings sampleOdb.nodeSets ↔ x ∈ sampleOdb.nodeSets)
    ∧ nodeSetErrMsg "GHOST" sampleOdb.nodeSets =
        "Node set " ++ "'" ++ "GHOST" ++ "'"
          ++ " not found in the ODB. Available sets: A, B" :=
  ⟨by decide, rfl, rfl, by decide,
   c6_unknown_node_set sampleOdb ghostCfg sampleStep [] [] "GHOST"
     (by decide) rfl rfl (by simp) (by decide),
   by decide⟩

/-! ## C5: split-mode lazy sinks -/

/-- The region name a data row carries (its third cell). -/
def regionOfRecord : Record → Option String
  | _ :: _ :: Cell.str r :: _ => some r
  | _ => none

/-- The data rows of a stretch of trace destined for region `R`. -/
def regionRows (evs : List FsEvent) (R : String) : List Record :=
  (dataRecords evs).filter fun r => regionOfRecord r = some R

theorem regionRows_append (d1 d2 : List FsEvent) (R : String) :
    regionRows (d1 ++ d2) R = regionRows d1 R ++ regionRows d2 R := by
  simp [regionRows, dataRecords_append, List.filter_append]

theorem regionRows_nil (R : String) : regionRows [] R = [] := rfl

/-- The split-mode sink invariant over a stretch of the run: sink paths
follow the sanitized-name formula, a sink exists for a region exactly when
a data row for it was emitted, and each freshly created sink's `openFile`
at the formula path is in the stretch. -/
def SplitInv (base ext : String) (s s' : Sinks) (evs : List FsEvent) : Prop :=
  (∀ R p, alistGet s' R = some p →
      alistGet s R = some p ∨ p = base ++ "__" ++ sanitizeName R ++ ext)
  ∧ (∀ R, (alistGet s' R).isSome ↔ ((alistGet s R).isSome ∨ regionRows evs R ≠ []))
  ∧ (∀ R, (alistGet s' R).isSome →
      ((alistGet s R).isSome ∨
        FsEvent.openFile (base ++ "__" ++ sanitizeName R ++ ext) ∈ evs))

theorem splitInv_refl (base ext : String) (s : Sinks) : SplitInv base ext s s [] := by
  refine ⟨fun R p hp => Or.inl hp, fun R => ?_, fun R hR => Or.inl hR⟩
  simp [regionRows_nil]

theorem splitInv_comp (base ext : String) (s0 s1 s2 : Sinks) (d1 d2 : List FsEvent)
    (h1 : SplitInv base ext s0 s1 d1) (h2 : SplitInv base ext s1 s2 d2) :
    SplitInv base ext s0 s2 (d1 ++ d2) := by
  obtain ⟨p1, e1, o1⟩ := h1
  obtain ⟨p2, e2, o2⟩ := h2
  refine ⟨?_, ?_, ?_⟩
  · intro R p hp
    rcases p2 R p hp with h | h
    · exact p1 R p h
    · exact Or.inr h
  · intro R
    rw [e2 R, e1 R]
    have hrr : regionRows (d1 ++ d2) R ≠ [] ↔
        (regionRows d1 R ≠ [] ∨ regionRows d2 R ≠ []) := by
      rw [regionRows_append]
      simp [List.append_eq_nil]
      tauto
    rw [hrr]
    tauto
  · intro R hR
    rcases o2 R hR with h | h
    · rcases o1 R h with h' | h'
      · exact Or.inl h'
      · exact Or.inr (List.mem_append_left _ h')
    · exact Or.inr (List.mem_append_right _ h)

theorem regionRows_single (p : String) (rec : Record) (R : String)
    (hrec : isDataRecord rec = true) :
    regionRows [FsEvent.write p rec] R =
      if regionOfRecord rec = some R then [rec] else [] := by
  by_cases h : regionOfRecord rec = some R <;>
    simp [regionRows, dataRecords, writeRecords, hrec, h]

theorem regionRows_openWriter (path : String) (hdr : Record)
    (hhdr : isDataRecord hdr = false) (R : String) :
    regionRows (openWriterEvents path hdr) R = [] := by
  simp [regionRows, dataRecords, writeRecords, openWriterEvents, hhdr]

theorem isDataRecord_rowRecord (i : Nat) (t : ℚ) (name inst : String) (label : Int)
    (c : Coordinates) (v : ℚ) :
    isDataRecord (rowRecord i t name inst label c v) = true := rfl

theorem regionOfRecord_rowRecord (i : Nat) (t : ℚ) (name inst : String) (label : Int)
    (c : Coordinates) (v : ℚ) :
    regionOfRecord (rowRecord i t name inst label c v) = some name := rfl

/-- One emitted row in split mode: `get_writer` (possibly creating the sink
at the formula path, header first) followed by the row write preserves the
invariant. -/
theorem getWriter_row_splitInv (base ext : String) (hdr : Record) (name : String)
    (sinks : Sinks) (hhdr : isDataRecord hdr = false) (rec : Record)
    (hrec : isDataRecord rec = true) (hregion : regionOfRecord rec = some name) :
    SplitInv base ext sinks (getWriter (.split base ext) hdr name sinks).sinks
      ((getWriter (.split base ext) hdr name sinks).events ++
        [FsEvent.write (getWriter (.split base ext) hdr name sinks).path rec]) := by
  unfold getWriter
  cases hg : alistGet sinks name with
  | some p =>
    simp only [List.nil_append]
    refine ⟨fun R q hq => Or.inl hq, fun R => ?_, fun R hR => Or.inl hR⟩
    rw [regionRows_single p rec R hrec]
    by_cases hR : R = name
    · subst hR
      simp [hregion, hg]
    · have : ¬regionOfRecord rec = some R := by
        rw [hregion]
        simp
        intro h
        exact hR h.symm
      simp [this]
  | none =>
    simp only
    refine ⟨?_, ?_, ?_⟩
    · intro R q hq
      by_cases hR : R = name
      · subst hR
        rw [alistGet_set_self] at hq
        right
        injection hq with hq
        exact hq.symm
      · rw [alistGet_set_ne _ _ _ _ hR] at hq
        exact Or.inl hq
    · intro R
      rw [regionRows_append, regionRows_openWriter _ _ hhdr,
        regionRows_single _ rec R hrec]
      by_cases hR : R = name
      · subst hR
        simp [alistGet_set_self, hregion, hg]
      · have : ¬regionOfRecord rec = some R := by
          rw [hregion]
          simp
          intro h
          exact hR h.symm
        simp [alistGet_set_ne _ _ _ _ hR, this]
    · intro R hR
      by_cases hRn : R = name
      · subst hRn
        right
        simp [openWriterEvents]
      · rw [alistGet_set_ne _ _ _ _ hRn] at hR
        exact Or.inl hR

theorem processValues_splitInv (base ext : String) (hdr : Record) (cache : CoordCache)
    (i : Nat) (t : ℚ) (name : String) (hhdr : isDataRecord hdr = false) :
    ∀ (vs : List FieldValue) (sinks : Sinks),
      SplitInv base ext sinks
        (processValues (.split base ext) hdr cache i t name vs sinks).sinks
        (processValues (.split base ext) hdr cache i t name vs sinks).events
  | [], sinks => splitInv_refl base ext sinks
  | v :: vs, sinks => by
    cases hc : lookupCoords cache v.instanceName v.nodeLabel with
    | error e =>
      simp only [processValues, hc]
      exact splitInv_refl base ext sinks
    | ok c =>
      simp only [processValues, hc]
      have hstep := getWriter_row_splitInv base ext hdr name sinks hhdr
        (rowRecord i t name v.instanceName v.nodeLabel c v.data)
        (isDataRecord_rowRecord i t name v.instanceName v.nodeLabel c v.data)
        (regionOfRecord_rowRecord i t name v.instanceName v.nodeLabel c v.data)
      exact splitInv_comp base ext _ _ _ _ _ hstep
        (processValues_splitInv base ext hdr cache i t name hhdr vs _)

theorem processRegions_splitInv (base ext : String) (hdr : Record) (cache : CoordCache)
    (i : Nat) (t : ℚ) (hhdr : isDataRecord hdr = false) :
    ∀ (rs : List (String × List FieldValue)) (sinks : Sinks),
      SplitInv base ext sinks
        (processRegions (.split base ext) hdr cache i t rs sinks).sinks
        (processRegions (.split base ext) hdr cache i t rs sinks).events
  | [], sinks => splitInv_refl base ext sinks
  | (name, vals) :: rest, sinks => by
    have h1 := processValues_splitInv base ext hdr cache i t name hhdr vals sinks
    cases he : (processValues (.split base ext) hdr cache i t name vals sinks).err with
    | some e =>
      simp only [processRegions, he]
      exact h1
    | none =>
      simp only [processRegions, he]
      exact splitInv_comp base ext _ _ _ _ _ h1
        (processRegions_splitInv base ext hdr cache i t hhdr rest _)

theorem processFrames_splitInv (base ext : String) (hdr : Record) (cache : CoordCache)
    (stride : Int) (sT eT : Option ℚ) (regions : Option (List String))
    (fieldVar stepName : String) (hhdr : isDataRecord hdr = false) :
    ∀ (frames : List OdbFrame) (i0 : Nat) (sinks : Sinks),
      SplitInv base ext sinks
        (processFrames (.split base ext) hdr cache stride sT eT regions fieldVar stepName
          frames i0 sinks).sinks
        (processFrames (.split base ext) hdr cache stride sT eT regions fieldVar stepName
          frames i0 sinks).events
  | [], _, sinks => splitInv_refl base ext sinks
  | f :: fs, i0, sinks => by
    cases hact : frameAction stride sT eT i0 f.frameValue
    · simp only [processFrames, hact]
      exact processFrames_splitInv base ext hdr cache stride sT eT regions fieldVar stepName
        hhdr fs (i0+1) sinks
    · simp only [processFrames, hact]
      exact splitInv_refl base ext sinks
    · cases hf : alistGet f.fieldOutputs fieldVar with
      | none =>
        simp only [processFrames, hact, hf]
        exact splitInv_refl base ext sinks
      | some field =>
        have h1 := processRegions_splitInv base ext hdr cache i0 f.frameValue hhdr
          (regionIter regions field) sinks
        cases he : (processRegions (.split base ext) hdr cache i0 f.frameValue
            (regionIter regions field) sinks).err with
        | some e =>
          simp only [processFrames, hact, hf, he]
          exact h1
        | none =>
          simp only [processFrames, hact, hf, he]
          exact splitInv_comp base ext _ _ _ _ _ h1
            (processFrames_splitInv base ext hdr cache stride sT eT regions fieldVar
              stepName hhdr fs (i0+1) _)

theorem writerMode_split (cfg : Config) (h : cfg.splitByNodeSet = true) :
    writerMode cfg = .split (splitBase cfg) (splitExt cfg) := by
  simp [writerMode, h]

/-- C5: in split mode the sinks are lazy and formula-addressed: every
registered sink's path is the base output path with `__` plus the
sanitized region name inserted before the (defaulted) extension; a region
has a sink exactly when at least one data row destined for it was emitted
over the whole run — a region with zero qualifying rows never opens a
file; every registered sink's `openFile` at that path is in the trace; and
every open is immediately followed by the header write, so a region with
at least one row has its header present. -/
theorem c5_split_lazy_sinks (odb : Odb) (cfg : Config)
    (hsplit : cfg.splitByNodeSet = true) :
    (∀ R p, alistGet (exportTemperatures odb cfg).sinks R = some p → p = regionPath cfg R)
    ∧ (∀ R, (alistGet (exportTemperatures odb cfg).sinks R).isSome ↔
        regionRows (exportTemperatures odb cfg).trace R ≠ [])
    ∧ (∀ R, (alistGet (exportTemperatures odb cfg).sinks R).isSome →
        FsEvent.openFile (regionPath cfg R) ∈ (exportTemperatures odb cfg).trace)
    ∧ opensHeadered (headerRecord cfg.fieldVariable)
        (exportTemperatures odb cfg).trace = true := by
  by_cases hstride : cfg.frameStride < 1
  · refine ⟨?_, ?_, ?_, ?_⟩ <;>
      simp [exportTemperatures, hstride, regionRows_nil, alistGet, opensHeadered]
  · cases hstep : alistGet odb.steps cfg.stepName with
    | none =>
      refine ⟨?_, ?_, ?_, ?_⟩ <;>
        simp [exportTemperatures, hstride, hstep, alistGet, regionRows, dataRecords,
          writeRecords, opensHeadered]
    | some step =>
      cases hres : resolveStage odb cfg with
      | error e =>
        refine ⟨?_, ?_, ?_, ?_⟩ <;>
          simp [exportTemperatures, hstride, hstep, hres, alistGet, regionRows,
            dataRecords, writeRecords, opensHeadered]
      | ok regions =>
        have hoh := export_opensHeadered odb cfg step regions hstride hstep hres
        rw [exportTemperatures_eq odb cfg step regions hstride hstep hres] at hoh ⊢
        simp only at hoh ⊢
        have hmode := writerMode_split cfg hsplit
        have hinit : exportInit cfg = ([], []) := by rw [exportInit, hmode]
        have hloop : exportLoop odb cfg step regions =
            processFrames (.split (splitBase cfg) (splitExt cfg))
              (headerRecord cfg.fieldVariable) (buildCoordinateCache odb.instances)
              cfg.frameStride cfg.startTime cfg.endTime regions cfg.fieldVariable
              cfg.stepName step.frames 0 [] := by
          rw [exportLoop, hmode, hinit]
        obtain ⟨pI, eI, oI⟩ := processFrames_splitInv (splitBase cfg) (splitExt cfg)
          (headerRecord cfg.fieldVariable) (buildCoordinateCache odb.instances)
          cfg.frameStride cfg.startTime cfg.endTime regions cfg.fieldVariable
          cfg.stepName (isDataRecord_headerRecord cfg.fieldVariable) step.frames 0 []
        rw [← hloop] at pI eI oI
        have htr : ∀ R,
            regionRows ([FsEvent.openOdb] ++ (exportInit cfg).2
              ++ (exportLoop odb cfg step regions).events
              ++ (exportLoop odb cfg step regions).sinks.map
                  (fun kp => FsEvent.closeFile kp.2)
              ++ [FsEvent.closeOdb]) R =
            regionRows (exportLoop odb cfg step regions).events R := by
          intro R
          rw [hinit]
          simp only [regionRows_append]
          have h1 : regionRows [FsEvent.openOdb] R = [] := rfl
          have h2 : regionRows [FsEvent.closeOdb] R = [] := rfl
          have h3 : regionRows ((exportLoop odb cfg step regions).sinks.map
              fun kp => FsEvent.closeFile kp.2) R = [] := by
            simp [regionRows, dataRecords_closes]
          rw [h1, h2, h3, regionRows_nil]
          simp
        refine ⟨?_, ?_, ?_, hoh⟩
        · intro R p hp
          rcases pI R p hp with h | h
          · exact Option.noConfusion h
          · exact h
        · intro R
          rw [htr R, eI R]
          simp [alistGet]
        · intro R hR
          rcases oI R hR with h | h
          · simp [alistGet] at h
          · simp only [List.mem_append]
            left; left; right
            exact h

/-- A split-mode archive with an extra node set that yields no values. -/
def splitOdb : Odb :=
  { steps := [("HeatStep", sampleStep)],
    instances := [⟨"PART-1", [⟨7, (1, 2, 3)⟩, ⟨8, (4, 5, 6)⟩]⟩],
    nodeSets := ["A", "B", "EMPTY"] }

def splitCfg : Config :=
  { odbPath := "j.odb", outputCsv := "out.csv", stepName := "HeatStep",
    nodeSets := some ["B", "EMPTY", "A"], fieldVariable := "NT11",
    startTime := none, endTime := none, frameStride := 1, splitByNodeSet := true }

theorem c5_split_lazy_sinks_witness :
    (splitCfg.splitByNodeSet = true)
    ∧ ((∀ R p, alistGet (exportTemperatures splitOdb splitCfg).sinks R = some p →
          p = regionPath splitCfg R)
        ∧ (∀ R, (alistGet (exportTemperatures splitOdb splitCfg).sinks R).isSome ↔
            regionRows (exportTemperatures splitOdb splitCfg).trace R ≠ [])
        ∧ (∀ R, (alistGet (exportTemperatures splitOdb splitCfg).sinks R).isSome →
            FsEvent.openFile (regionPath splitCfg R) ∈
              (exportTemperatures splitOdb splitCfg).trace)
        ∧ opensHeadered (headerRecord splitCfg.fieldVariable)
            (exportTemperatures splitOdb splitCfg).trace = true)
    ∧ regionPath splitCfg "SENSORS N" = "out__SENSORS_N.csv"
    ∧ alistGet (exportTemperatures splitOdb splitCfg).sinks "EMPTY" = none
    ∧ alistGet (exportTemperatures splitOdb splitCfg).sinks "B" = some "out__B.csv" :=
  ⟨rfl, c5_split_lazy_sinks splitOdb splitCfg rfl, by decide, by decide, by decide⟩

/-! ## C8, C9: per-frame failures -/

/-- The coordinate-cache lookup for a value succeeds. -/
def coordsOk (cache : CoordCache) (v : FieldValue) : Bool :=
  match lookupCoords cache v.instanceName v.nodeLabel with
  | .ok _ => true
  | .error _ => false

/-- A frame extracts without error: its field is present and every value of
every region has cached coordinates. -/
def frameOk (cache : CoordCache) (regions : Option (List String)) (fieldVar : String)
    (f : OdbFrame) : Bool :=
  match alistGet f.fieldOutputs fieldVar with
  | none => false
  | some field => (regionIter regions field).all fun nv => nv.2.all (coordsOk cache)

theorem processValues_err_none (mode : WriterMode) (hdr : Record) (cache : CoordCache)
    (i : Nat) (t : ℚ) (name : String) :
    ∀ (vs : List FieldValue) (sinks : Sinks), (∀ v ∈ vs, coordsOk cache v = true) →
      (processValues mode hdr cache i t name vs sinks).err = none
  | [], sinks, _ => rfl
  | v :: vs, sinks, h => by
    have hv := h v (by simp)
    unfold coordsOk at hv
    cases hc : lookupCoords cache v.instanceName v.nodeLabel with
    | error e => rw [hc] at hv; simp at hv
    | ok c =>
      simp only [processValues, hc]
      exact processValues_err_none mode hdr cache i t name vs _
        fun u hu => h u (by simp [hu])

theorem processRegions_err_none (mode : WriterMode) (hdr : Record) (cache : CoordCache)
    (i : Nat) (t : ℚ) :
    ∀ (rs : List (String × List FieldValue)) (sinks : Sinks),
      (∀ nv ∈ rs, ∀ u ∈ nv.2, coordsOk cache u = true) →
      (processRegions mode hdr cache i t rs sinks).err = none
  | [], sinks, _ => rfl
  | (name, vals) :: rest, sinks, h => by
    have hok := processValues_err_none mode hdr cache i t name vals sinks
      fun u hu => h (name, vals) (by simp) u hu
    simp only [processRegions, hok]
    exact processRegions_err_none mode hdr cache i t rest _
      fun nv hnv u hu => h nv (by simp [hnv]) u hu

theorem frameOk_field (cache : CoordCache) (regions : Option (List String))
    (fieldVar : String) (f : OdbFrame) (h : frameOk cache regions fieldVar f = true) :
    ∃ field, alistGet f.fieldOutputs fieldVar = some field ∧
      ∀ nv ∈ regionIter regions field, ∀ u ∈ nv.2, coordsOk cache u = true := by
  unfold frameOk at h
  cases hf : alistGet f.fieldOutputs fieldVar with
  | none => rw [hf] at h; simp at h
  | some field =>
    rw [hf] at h
    refine ⟨field, rfl, ?_⟩
    simp only [List.all_eq_true] at h
    intro nv hnv u hu
    exact h nv hnv u hu

theorem specRow_head (cache : CoordCache) (j : Nat) (t : ℚ) (name : String)
    (v : FieldValue) : (specRow cache j t name v).head? = some (Cell.nat j) := rfl

/-- The frame loop aborting on the first processed frame that lacks the
field: all earlier processed frames being clean, the loop fails with the
frame's missing-field message and every emitted row bears an earlier
processed frame's index. -/
theorem processFrames_missing_field (mode : WriterMode) (hdr : Record) (cache : CoordCache)
    (stride : Int) (sT eT : Option ℚ) (regions : Option (List String))
    (fieldVar stepName : String) (hhdr : isDataRecord hdr = false) :
    ∀ (frames : List OdbFrame) (i0 : Nat) (sinks : Sinks) (i₀ : Nat),
      i₀ ∈ processedFrom stride sT eT (frames.map OdbFrame.frameValue) i0 →
      (∀ j ∈ processedFrom stride sT eT (frames.map OdbFrame.frameValue) i0, j < i₀ →
        frameOk cache regions fieldVar (frames.getD (j - i0) default) = true) →
      alistGet (frames.getD (i₀ - i0) default).fieldOutputs fieldVar = none →
      (processFrames mode hdr cache stride sT eT regions fieldVar stepName
          frames i0 sinks).err = some (.systemExit (missingFieldMsg fieldVar i₀ stepName)) ∧
      ∀ r ∈ dataRecords (processFrames mode hdr cache stride sT eT regions fieldVar stepName
          frames i0 sinks).events,
        ∃ j, j ∈ processedFrom stride sT eT (frames.map OdbFrame.frameValue) i0 ∧ j < i₀ ∧
          r.head? = some (Cell.nat j)
  | [], i0, sinks, i₀, hmem, _, _ => by simp [processedFrom] at hmem
  | f :: fs, i0, sinks, i₀, hmem, hok, hmiss => by
    rw [List.map_cons] at hmem
    cases hact : frameAction stride sT eT i0 f.frameValue
    · -- skip
      rw [processedFrom, hact] at hmem
      have hok' : ∀ j ∈ processedFrom stride sT eT (fs.map OdbFrame.frameValue) (i0+1),
          j < i₀ → frameOk cache regions fieldVar (fs.getD (j - (i0+1)) default) = true := by
        intro j hj hlt
        have hge := processedFrom_mem_ge stride sT eT (fs.map OdbFrame.frameValue) (i0+1) j hj
        have hsub : j - i0 = (j - (i0+1)) + 1 := by omega
        have := hok j (by rw [List.map_cons, processedFrom, hact]; exact hj) hlt
        rw [hsub, List.getD_cons_succ] at this
        exact this
      have hge₀ := processedFrom_mem_ge stride sT eT (fs.map OdbFrame.frameValue) (i0+1) i₀ hmem
      have hmiss' : alistGet (fs.getD (i₀ - (i0+1)) default).fieldOutputs fieldVar = none := by
        have hsub : i₀ - i0 = (i₀ - (i0+1)) + 1 := by omega
        rw [hsub, List.getD_cons_succ] at hmiss
        exact hmiss
      obtain ⟨he, hr⟩ := processFrames_missing_field mode hdr cache stride sT eT regions
        fieldVar stepName hhdr fs (i0+1) sinks i₀ hmem hok' hmiss'
      simp only [processFrames, hact]
      refine ⟨he, fun r hrr => ?_⟩
      obtain ⟨j, hj, hlt, hh⟩ := hr r hrr
      exact ⟨j, by rw [List.map_cons, processedFrom, hact]; exact hj, hlt, hh⟩
    · -- stop
      rw [processedFrom, hact] at hmem
      simp at hmem
    · -- process
      rw [processedFrom, hact] at hmem
      by_cases hi : i₀ = i0
      · subst hi
        rw [Nat.sub_self, List.getD_cons_zero] at hmiss
        simp only [processFrames, hact, hmiss]
        exact ⟨by trivial, fun r hrr => by simp [dataRecords, writeRecords] at hrr⟩
      · have hmem' : i₀ ∈ processedFrom stride sT eT (fs.map OdbFrame.frameValue) (i0+1) := by
          rcases List.mem_cons.mp hmem with h | h
          · exact absurd h hi
          · exact h
        have hge₀ := processedFrom_mem_ge stride sT eT (fs.map OdbFrame.frameValue) (i0+1) i₀ hmem'
        have hfok : frameOk cache regions fieldVar f = true := by
          have := hok i0 (by rw [List.map_cons, processedFrom, hact]; simp) (by omega)
          rw [Nat.sub_self, List.getD_cons_zero] at this
          exact this
        obtain ⟨field, hf, hall⟩ := frameOk_field cache regions fieldVar f hfok
        have he1 : (processRegions mode hdr cache i0 f.frameValue
            (regionIter regions field) sinks).err = none :=
          processRegions_err_none mode hdr cache i0 f.frameValue (regionIter regions field)
            sinks hall
        have hok' : ∀ j ∈ processedFrom stride sT eT (fs.map OdbFrame.frameValue) (i0+1),
            j < i₀ → frameOk cache regions fieldVar (fs.getD (j - (i0+1)) default) = true := by
          intro j hj hlt
          have hge := processedFrom_mem_ge stride sT eT (fs.map OdbFrame.frameValue) (i0+1) j hj
          have hsub : j - i0 = (j - (i0+1)) + 1 := by omega
          have := hok j (by rw [List.map_cons, processedFrom, hact]; simp [hj]) hlt
          rw [hsub, List.getD_cons_succ] at this
          exact this
        have hmiss' : alistGet (fs.getD (i₀ - (i0+1)) default).fieldOutputs fieldVar = none := by
          have hsub : i₀ - i0 = (i₀ - (i0+1)) + 1 := by omega
          rw [hsub, List.getD_cons_succ] at hmiss
          exact hmiss
        obtain ⟨he, hr⟩ := processFrames_missing_field mode hdr cache stride sT eT regions
          fieldVar stepName hhdr fs (i0+1)
          (processRegions mode hdr cache i0 f.frameValue (regionIter regions field) sinks).sinks
          i₀ hmem' hok' hmiss'
        simp only [processFrames, hact, hf, he1]
        refine ⟨he, fun r hrr => ?_⟩
        rw [dataRecords_append] at hrr
        rcases List.mem_append.mp hrr with h | h
        · -- a row of this clean frame
          rw [processRegions_ok mode hdr cache i0 f.frameValue hhdr
            (regionIter regions field) sinks he1] at h
          obtain ⟨nv, hnv, hrm⟩ := List.mem_flatMap.mp h
          obtain ⟨u, hu, hru⟩ := List.mem_map.mp hrm
          refine ⟨i0, by rw [List.map_cons, processedFrom, hact]; simp, by omega, ?_⟩
          rw [← hru]
          exact specRow_head cache i0 f.frameValue nv.1 u
        · obtain ⟨j, hj, hlt, hh⟩ := hr r h
          exact ⟨j, by rw [List.map_cons, processedFrom, hact]; simp [hj], hlt, hh⟩

theorem dataRecords_openOdb : dataRecords [FsEvent.openOdb] = [] := rfl

theorem dataRecords_closeOdb : dataRecords [FsEvent.closeOdb] = [] := rfl

/-- C8: if a frame that survives stride and time-window filtering lacks the
requested field variable — every earlier processed frame extracting
cleanly — the whole export aborts with the missing-field `SystemExit`
identifying that frame index and the step name, and every data row of the
trace bears the index of an earlier processed frame: no later frame is
processed and the failure is not skipped silently. -/
theorem c8_missing_field (odb : Odb) (cfg : Config) (step : OdbStep)
    (regions : Option (List String)) (i₀ : Nat)
    (hstride : ¬cfg.frameStride < 1)
    (hstep : alistGet odb.steps cfg.stepName = some step)
    (hres : resolveStage odb cfg = .ok regions)
    (hmem : i₀ ∈ processedFrom cfg.frameStride cfg.startTime cfg.endTime
      (step.frames.map OdbFrame.frameValue) 0)
    (hok : ∀ j ∈ processedFrom cfg.frameStride cfg.startTime cfg.endTime
        (step.frames.map OdbFrame.frameValue) 0, j < i₀ →
      frameOk (buildCoordinateCache odb.instances) regions cfg.fieldVariable
        (step.frames.getD j default) = true)
    (hmiss : alistGet (step.frames.getD i₀ default).fieldOutputs cfg.fieldVariable = none) :
    (exportTemperatures odb cfg).err =
      some (.systemExit (missingFieldMsg cfg.fieldVariable i₀ cfg.stepName)) ∧
    ∀ r ∈ dataRecords (exportTemperatures odb cfg).trace,
      ∃ j, j ∈ processedFrom cfg.frameStride cfg.startTime cfg.endTime
          (step.frames.map OdbFrame.frameValue) 0 ∧ j < i₀ ∧
        r.head? = some (Cell.nat j) := by
  rw [exportTemperatures_eq odb cfg step regions hstride hstep hres]
  simp only
  have hok' : ∀ j ∈ processedFrom cfg.frameStride cfg.startTime cfg.endTime
      (step.frames.map OdbFrame.frameValue) 0, j < i₀ →
      frameOk (buildCoordinateCache odb.instances) regions cfg.fieldVariable
        (step.frames.getD (j - 0) default) = true := by simpa using hok
  have hmiss' : alistGet (step.frames.getD (i₀ - 0) default).fieldOutputs
      cfg.fieldVariable = none := by simpa using hmiss
  obtain ⟨he, hr⟩ := processFrames_missing_field (writerMode cfg)
    (headerRecord cfg.fieldVariable) (buildCoordinateCache odb.instances)
    cfg.frameStride cfg.startTime cfg.endTime regions cfg.fieldVariable cfg.stepName
    (isDataRecord_headerRecord cfg.fieldVariable) step.frames 0 (exportInit cfg).1
    i₀ hmem hok' hmiss'
  rw [exportLoop]
  refine ⟨he, fun r hrr => ?_⟩
  simp only [dataRecords_append, exportInit_dataRecords, dataRecords_closes,
    dataRecords_openOdb, dataRecords_closeOdb, List.mem_append, List.not_mem_nil,
    or_false, false_or] at hrr
  exact hr r hrr

/-- An archive whose second frame is missing the field variable. -/
def missingFieldStep : OdbStep :=
  ⟨[⟨0, [("NT11", sampleField)]⟩, ⟨1, []⟩]⟩

def missingFieldOdb : Odb :=
  { steps := [("HeatStep", missingFieldStep)],
    instances := [⟨"PART-1", [⟨7, (1, 2, 3)⟩, ⟨8, (4, 5, 6)⟩]⟩],
    nodeSets := ["A", "B"] }

theorem c8_missing_field_witness :
    (¬sampleCfg.frameStride < 1)
    ∧ (1 ∈ processedFrom sampleCfg.frameStride sampleCfg.startTime sampleCfg.endTime
        (missingFieldStep.frames.map OdbFrame.frameValue) 0)
    ∧ ((exportTemperatures missingFieldOdb sampleCfg).err =
        some (.systemExit (missingFieldMsg sampleCfg.fieldVariable 1 sampleCfg.stepName))
      ∧ ∀ r ∈ dataRecords (exportTemperatures missingFieldOdb sampleCfg).trace,
          ∃ j, j ∈ processedFrom sampleCfg.frameStride sampleCfg.startTime
              sampleCfg.endTime (missingFieldStep.frames.map OdbFrame.frameValue) 0 ∧
            j < 1 ∧ r.head? = some (Cell.nat j)) :=
  ⟨by decide, by decide,
   c8_missing_field missingFieldOdb sampleCfg missingFieldStep (some ["B", "A"]) 1
     (by decide) rfl rfl (by decide) (by decide) rfl⟩

/-- The instance name a data row carries (its fourth cell). -/
def instOfRecord : Record → Option String
  | _ :: _ :: _ :: Cell.str s :: _ => some s
  | _ => none

/-- The node label a data row carries (its fifth cell). -/
def labelOfRecord : Record → Option Int
  | _ :: _ :: _ :: _ :: Cell.int n :: _ => some n
  | _ => none

theorem instOfRecord_specRow (cache : CoordCache) (j : Nat) (t : ℚ) (name : String)
    (v : FieldValue) : instOfRecord (specRow cache j t name v) = some v.instanceName := rfl

theorem labelOfRecord_specRow (cache : CoordCache) (j : Nat) (t : ℚ) (name : String)
    (v : FieldValue) : labelOfRecord (specRow cache j t name v) = some v.nodeLabel := rfl

theorem coordsOk_ne_error (cache : CoordCache) (u v : FieldValue) (e : ExportError)
    (hu : coordsOk cache u = true)
    (hv : lookupCoords cache v.instanceName v.nodeLabel = .error e) :
    ¬(u.instanceName = v.instanceName ∧ u.nodeLabel = v.nodeLabel) := by
  rintro ⟨h1, h2⟩
  unfold coordsOk at hu
  rw [h1, h2, hv] at hu
  simp at hu

theorem processValues_abort (mode : WriterMode) (hdr : Record) (cache : CoordCache)
    (i : Nat) (t : ℚ) (name : String) (hhdr : isDataRecord hdr = false)
    (v : FieldValue) (e : ExportError)
    (hv : lookupCoords cache v.instanceName v.nodeLabel = .error e) :
    ∀ (pre : List FieldValue) (post : List FieldValue) (sinks : Sinks),
      (∀ u ∈ pre, coordsOk cache u = true) →
      (processValues mode hdr cache i t name (pre ++ v :: post) sinks).err = some e ∧
      dataRecords (processValues mode hdr cache i t name (pre ++ v :: post) sinks).events =
        pre.map (specRow cache i t name)
  | [], post, sinks, _ => by
    simp only [List.nil_append, processValues, hv]
    exact ⟨by trivial, by trivial⟩
  | u :: pre, post, sinks, hpre => by
    have hu := hpre u (by simp)
    unfold coordsOk at hu
    cases hc : lookupCoords cache u.instanceName u.nodeLabel with
    | error e' => rw [hc] at hu; simp at hu
    | ok c =>
      simp only [List.cons_append, processValues, hc, List.append_eq]
      obtain ⟨he, hd⟩ := processValues_abort mode hdr cache i t name hhdr v e hv pre post
        (getWriter mode hdr name sinks).sinks fun w hw => hpre w (by simp [hw])
      refine ⟨he, ?_⟩
      rw [dataRecords_append, dataRecords_append,
        getWriter_dataRecords mode hdr name sinks hhdr, hd,
        rowRecord_eq_specRow cache i t name u c hc]
      simp [dataRecords, writeRecords, isDataRecord, specRow]

theorem processRegions_abort (mode : WriterMode) (hdr : Record) (cache : CoordCache)
    (i : Nat) (t : ℚ) (hhdr : isDataRecord hdr = false)
    (name : String) (v : FieldValue) (e : ExportError) (pre post : List FieldValue)
    (hv : lookupCoords cache v.instanceName v.nodeLabel = .error e)
    (hpre : ∀ u ∈ pre, coordsOk cache u = true) :
    ∀ (R1 R2 : List (String × List FieldValue)) (sinks : Sinks),
      (∀ nv ∈ R1, ∀ u ∈ nv.2, coordsOk cache u = true) →
      (processRegions mode hdr cache i t (R1 ++ (name, pre ++ v :: post) :: R2)
          sinks).err = some e ∧
      dataRecords (processRegions mode hdr cache i t
          (R1 ++ (name, pre ++ v :: post) :: R2) sinks).events =
        (R1.flatMap fun nv => nv.2.map (specRow cache i t nv.1))
          ++ pre.map (specRow cache i t name)
  | [], R2, sinks, _ => by
    obtain ⟨he, hd⟩ :=
      processValues_abort mode hdr cache i t name hhdr v e hv pre post sinks hpre
    simp only [List.nil_append, processRegions, he]
    refine ⟨by trivial, ?_⟩
    rw [hd]
    simp
  | (n1, vs1) :: R1, R2, sinks, hR1 => by
    have hok : (processValues mode hdr cache i t n1 vs1 sinks).err = none :=
      processValues_err_none mode hdr cache i t n1 vs1 sinks
        fun u hu => hR1 (n1, vs1) (by simp) u hu
    simp only [List.cons_append, processRegions, hok, List.append_eq]
    obtain ⟨he, hd⟩ := processRegions_abort mode hdr cache i t hhdr name v e pre post
      hv hpre R1 R2 (processValues mode hdr cache i t n1 vs1 sinks).sinks
      fun nv hnv u hu => hR1 nv (by simp [hnv]) u hu
    refine ⟨he, ?_⟩
    rw [dataRecords_append, processValues_ok mode hdr cache i t n1 hhdr vs1 sinks hok, hd]
    simp [List.flatMap_cons]

/-- The frame loop aborting inside a processed frame on the first value
whose coordinates are missing: earlier processed frames and this frame's
earlier regions and values are emitted, the loop fails with the `KeyError`
of the lookup, and nothing else is emitted. -/
theorem processFrames_coord_abort (mode : WriterMode) (hdr : Record) (cache : CoordCache)
    (stride : Int) (sT eT : Option ℚ) (regions : Option (List String))
    (fieldVar stepName : String) (hhdr : isDataRecord hdr = false)
    (name : String) (v : FieldValue) (e : ExportError)
    (pre post : List FieldValue)
    (hv : lookupCoords cache v.instanceName v.nodeLabel = .error e)
    (hpre : ∀ u ∈ pre, coordsOk cache u = true) :
    ∀ (frames : List OdbFrame) (i0 : Nat) (sinks : Sinks) (i₀ : Nat)
      (field : FieldOutput) (R1 R2 : List (String × List FieldValue)),
      i₀ ∈ processedFrom stride sT eT (frames.map OdbFrame.frameValue) i0 →
      (∀ j ∈ processedFrom stride sT eT (frames.map OdbFrame.frameValue) i0, j < i₀ →
        frameOk cache regions fieldVar (frames.getD (j - i0) default) = true) →
      alistGet (frames.getD (i₀ - i0) default).fieldOutputs fieldVar = some field →
      regionIter regions field = R1 ++ (name, pre ++ v :: post) :: R2 →
      (∀ nv ∈ R1, ∀ u ∈ nv.2, coordsOk cache u = true) →
      (processFrames mode hdr cache stride sT eT regions fieldVar stepName
          frames i0 sinks).err = some e ∧
      ∃ E, dataRecords (processFrames mode hdr cache stride sT eT regions fieldVar stepName
            frames i0 sinks).events =
          E ++ ((R1.flatMap fun nv => nv.2.map
              (specRow cache i₀ (frames.getD (i₀ - i0) default).frameValue nv.1))
            ++ pre.map (specRow cache i₀ (frames.getD (i₀ - i0) default).frameValue name)) ∧
        ∀ r ∈ E, ∃ j, j ∈ processedFrom stride sT eT (frames.map OdbFrame.frameValue) i0 ∧
          j < i₀ ∧ r.head? = some (Cell.nat j)
  | [], i0, sinks, i₀, field, R1, R2, hmem, _, _, _, _ => by
    simp [processedFrom] at hmem
  | f :: fs, i0, sinks, i₀, field, R1, R2, hmem, hok, hf, hsplit, hR1 => by
    rw [List.map_cons] at hmem
    cases hact : frameAction stride sT eT i0 f.frameValue
    · -- skip
      rw [processedFrom, hact] at hmem
      have hge₀ := processedFrom_mem_ge stride sT eT (fs.map OdbFrame.frameValue) (i0+1) i₀ hmem
      have hok' : ∀ j ∈ processedFrom stride sT eT (fs.map OdbFrame.frameValue) (i0+1),
          j < i₀ → frameOk cache regions fieldVar (fs.getD (j - (i0+1)) default) = true := by
        intro j hj hlt
        have hge := processedFrom_mem_ge stride sT eT (fs.map OdbFrame.frameValue) (i0+1) j hj
        have hsub : j - i0 = (j - (i0+1)) + 1 := by omega
        have := hok j (by rw [List.map_cons, processedFrom, hact]; exact hj) hlt
        rw [hsub, List.getD_cons_succ] at this
        exact this
      have hsub₀ : i₀ - i0 = (i₀ - (i0+1)) + 1 := by omega
      rw [hsub₀, List.getD_cons_succ] at hf
      obtain ⟨he, E, hd, hE⟩ := processFrames_coord_abort mode hdr cache stride sT eT
        regions fieldVar stepName hhdr name v e pre post hv hpre fs (i0+1) sinks i₀
        field R1 R2 hmem hok' hf hsplit hR1
      simp only [processFrames, hact]
      refine ⟨he, E, ?_, fun r hr => ?_⟩
      · rw [hd, hsub₀, List.getD_cons_succ]
      · obtain ⟨j, hj, hlt, hh⟩ := hE r hr
        exact ⟨j, by rw [List.map_cons, processedFrom, hact]; exact hj, hlt, hh⟩
    · -- stop
      rw [processedFrom, hact] at hmem
      simp at hmem
    · -- process
      rw [processedFrom, hact] at hmem
      by_cases hi : i₀ = i0
      · subst hi
        rw [Nat.sub_self, List.getD_cons_zero] at hf
        obtain ⟨he, hd⟩ := processRegions_abort mode hdr cache i₀ f.frameValue hhdr
          name v e pre post hv hpre R1 R2 sinks hR1
        rw [← hsplit] at he hd
        simp only [processFrames, hact, hf, he]
        refine ⟨by trivial, [], ?_, fun r hr => by simp at hr⟩
        rw [Nat.sub_self, List.getD_cons_zero, List.nil_append, hd]
      · have hmem' : i₀ ∈ processedFrom stride sT eT (fs.map OdbFrame.frameValue) (i0+1) := by
          rcases List.mem_cons.mp hmem with h | h
          · exact absurd h hi
          · exact h
        have hge₀ := processedFrom_mem_ge stride sT eT (fs.map OdbFrame.frameValue) (i0+1) i₀ hmem'
        have hfok : frameOk cache regions fieldVar f = true := by
          have := hok i0 (by rw [List.map_cons, processedFrom, hact]; simp) (by omega)
          rw [Nat.sub_self, List.getD_cons_zero] at this
          exact this
        obtain ⟨field0, hf0, hall0⟩ := frameOk_field cache regions fieldVar f hfok
        have he1 : (processRegions mode hdr cache i0 f.frameValue
            (regionIter regions field0) sinks).err = none :=
          processRegions_err_none mode hdr cache i0 f.frameValue (regionIter regions field0)
            sinks hall0
        have hok' : ∀ j ∈ processedFrom stride sT eT (fs.map OdbFrame.frameValue) (i0+1),
            j < i₀ → frameOk cache regions fieldVar (fs.getD (j - (i0+1)) default) = true := by
          intro j hj hlt
          have hge := processedFrom_mem_ge stride sT eT (fs.map OdbFrame.frameValue) (i0+1) j hj
          have hsub : j - i0 = (j - (i0+1)) + 1 := by omega
          have := hok j (by rw [List.map_cons, processedFrom, hact]; simp [hj]) hlt
          rw [hsub, List.getD_cons_succ] at this
          exact this
        have hsub₀ : i₀ - i0 = (i₀ - (i0+1)) + 1 := by omega
        rw [hsub₀, List.getD_cons_succ] at hf
        obtain ⟨he, E, hd, hE⟩ := processFrames_coord_abort mode hdr cache stride sT eT
          regions fieldVar stepName hhdr name v e pre post hv hpre fs (i0+1)
          (processRegions mode hdr cache i0 f.frameValue (regionIter regions field0)
            sinks).sinks i₀ field R1 R2 hmem' hok' hf hsplit hR1
        simp only [processFrames, hact, hf0, he1]
        refine ⟨he,
          dataRecords (processRegions mode hdr cache i0 f.frameValue
            (regionIter regions field0) sinks).events ++ E, ?_, fun r hr => ?_⟩
        · rw [dataRecords_append, hd, hsub₀, List.getD_cons_succ, List.append_assoc]
        · rcases List.mem_append.mp hr with h | h
          · rw [processRegions_ok mode hdr cache i0 f.frameValue hhdr
              (regionIter regions field0) sinks he1] at h
            obtain ⟨nv, hnv, hrm⟩ := List.mem_flatMap.mp h
            obtain ⟨u, hu, hru⟩ := List.mem_map.mp hrm
            refine ⟨i0, by rw [List.map_cons, processedFrom, hact]; simp, by omega, ?_⟩
            rw [← hru]
            exact specRow_head cache i0 f.frameValue nv.1 u
          · obtain ⟨j, hj, hlt, hh⟩ := hE r h
            exact ⟨j, by rw [List.map_cons, processedFrom, hact]; simp [hj], hlt, hh⟩

/-- C9: if a field value that survives stride and time-window filtering
references an instance/node-label pair absent from the coordinate cache —
everything reached before it extracting cleanly — the whole run aborts
with the lookup's `KeyError`: the trace's data rows are exactly an
earlier-frames block followed by this frame's earlier regions and this
region's earlier values, so no row is emitted for the offending value and
no later value of the run is processed. -/
theorem c9_missing_coordinate (odb : Odb) (cfg : Config) (step : OdbStep)
    (regions : Option (List String)) (i₀ : Nat) (field : FieldOutput)
    (name : String) (v : FieldValue) (e : ExportError)
    (pre post : List FieldValue) (R1 R2 : List (String × List FieldValue))
    (hstride : ¬cfg.frameStride < 1)
    (hstep : alistGet odb.steps cfg.stepName = some step)
    (hres : resolveStage odb cfg = .ok regions)
    (hmem : i₀ ∈ processedFrom cfg.frameStride cfg.startTime cfg.endTime
      (step.frames.map OdbFrame.frameValue) 0)
    (hok : ∀ j ∈ processedFrom cfg.frameStride cfg.startTime cfg.endTime
        (step.frames.map OdbFrame.frameValue) 0, j < i₀ →
      frameOk (buildCoordinateCache odb.instances) regions cfg.fieldVariable
        (step.frames.getD j default) = true)
    (hf : alistGet (step.frames.getD i₀ default).fieldOutputs cfg.fieldVariable = some field)
    (hsplit : regionIter regions field = R1 ++ (name, pre ++ v :: post) :: R2)
    (hR1 : ∀ nv ∈ R1, ∀ u ∈ nv.2, coordsOk (buildCoordinateCache odb.instances) u = true)
    (hpre : ∀ u ∈ pre, coordsOk (buildCoordinateCache odb.instances) u = true)
    (hv : lookupCoords (buildCoordinateCache odb.instances) v.instanceName v.nodeLabel
      = .error e) :
    (exportTemperatures odb cfg).err = some e ∧
    (∃ E, dataRecords (exportTemperatures odb cfg).trace =
        E ++ ((R1.flatMap fun nv => nv.2.map
            (specRow (buildCoordinateCache odb.instances) i₀
              (step.frames.getD i₀ default).frameValue nv.1))
          ++ pre.map (specRow (buildCoordinateCache odb.instances) i₀
              (step.frames.getD i₀ default).frameValue name)) ∧
      ∀ r ∈ E, ∃ j, j ∈ processedFrom cfg.frameStride cfg.startTime cfg.endTime
          (step.frames.map OdbFrame.frameValue) 0 ∧ j < i₀ ∧
        r.head? = some (Cell.nat j)) ∧
    ∀ r ∈ dataRecords (exportTemperatures odb cfg).trace,
      r.head? = some (Cell.nat i₀) →
      ¬(instOfRecord r = some v.instanceName ∧ labelOfRecord r = some v.nodeLabel) := by
  rw [exportTemperatures_eq odb cfg step regions hstride hstep hres]
  simp only
  have hok' : ∀ j ∈ processedFrom cfg.frameStride cfg.startTime cfg.endTime
      (step.frames.map OdbFrame.frameValue) 0, j < i₀ →
      frameOk (buildCoordinateCache odb.instances) regions cfg.fieldVariable
        (step.frames.getD (j - 0) default) = true := by simpa using hok
  have hf' : alistGet (step.frames.getD (i₀ - 0) default).fieldOutputs
      cfg.fieldVariable = some field := by simpa using hf
  obtain ⟨he, E, hd, hE⟩ := processFrames_coord_abort (writerMode cfg)
    (headerRecord cfg.fieldVariable) (buildCoordinateCache odb.instances)
    cfg.frameStride cfg.startTime cfg.endTime regions cfg.fieldVariable cfg.stepName
    (isDataRecord_headerRecord cfg.fieldVariable) name v e pre post hv hpre
    step.frames 0 (exportInit cfg).1 i₀ field R1 R2 hmem hok' hf' hsplit hR1
  rw [exportLoop]
  have htr : dataRecords
      ([FsEvent.openOdb] ++ (exportInit cfg).2
        ++ (processFrames (writerMode cfg) (headerRecord cfg.fieldVariable)
            (buildCoordinateCache odb.instances) cfg.frameStride cfg.startTime
            cfg.endTime regions cfg.fieldVariable cfg.stepName step.frames 0
            (exportInit cfg).1).events
        ++ (processFrames (writerMode cfg) (headerRecord cfg.fieldVariable)
            (buildCoordinateCache odb.instances) cfg.frameStride cfg.startTime
            cfg.endTime regions cfg.fieldVariable cfg.stepName step.frames 0
            (exportInit cfg).1).sinks.map (fun kp => FsEvent.closeFile kp.2)
        ++ [FsEvent.closeOdb]) =
      dataRecords (processFrames (writerMode cfg) (headerRecord cfg.fieldVariable)
        (buildCoordinateCache odb.instances) cfg.frameStride cfg.startTime
        cfg.endTime regions cfg.fieldVariable cfg.stepName step.frames 0
        (exportInit cfg).1).events := by
    simp only [dataRecords_append, exportInit_dataRecords, dataRecords_closes,
      dataRecords_openOdb, dataRecords_closeOdb]
    simp
  rw [htr]
  have hsub : ∀ rows : List Record, rows = rows := fun _ => rfl
  refine ⟨he, ⟨E, by rw [hd]; simp, fun r hr => by simpa using hE r hr⟩, ?_⟩
  intro r hr hhead
  rw [hd] at hr
  simp only [Nat.sub_zero] at hr
  rcases List.mem_append.mp hr with h | h
  · obtain ⟨j, hj, hlt, hh⟩ := hE r h
    rw [hhead] at hh
    injection hh with hh'
    injection hh' with hh''
    omega
  · rcases List.mem_append.mp h with h | h
    · obtain ⟨nv, hnv, hrm⟩ := List.mem_flatMap.mp h
      obtain ⟨u, hu, hru⟩ := List.mem_map.mp hrm
      rw [← hru]
      rw [instOfRecord_specRow, labelOfRecord_specRow]
      rintro ⟨h1, h2⟩
      injection h1 with h1'
      injection h2 with h2'
      exact coordsOk_ne_error (buildCoordinateCache odb.instances) u v e
        (hR1 nv hnv u hu) hv ⟨h1', h2'⟩
    · obtain ⟨u, hu, hru⟩ := List.mem_map.mp h
      rw [← hru]
      rw [instOfRecord_specRow, labelOfRecord_specRow]
      rintro ⟨h1, h2⟩
      injection h1 with h1'
      injection h2 with h2'
      exact coordsOk_ne_error (buildCoordinateCache odb.instances) u v e
        (hpre u hu) hv ⟨h1', h2'⟩

/-- An archive whose field data references node label 99, absent from the
instance's node list. -/
def badValueField : FieldOutput :=
  ⟨[⟨"PART-1", 7, 350⟩, ⟨"PART-1", 99, 351⟩], fun _ => []⟩

def badValueStep : OdbStep := ⟨[⟨0, [("NT11", badValueField)]⟩]⟩

def badValueOdb : Odb :=
  { steps := [("HeatStep", badValueStep)],
    instances := [⟨"PART-1", [⟨7, (1, 2, 3)⟩]⟩],
    nodeSets := [] }

def allCfg : Config :=
  { odbPath := "j.odb", outputCsv := "out.csv", stepName := "HeatStep",
    nodeSets := none, fieldVariable := "NT11", startTime := none, endTime := none,
    frameStride := 1, splitByNodeSet := false }

theorem c9_missing_coordinate_witness :
    (lookupCoords (buildCoordinateCache badValueOdb.instances) "PART-1" 99 =
      .error (.keyError "99"))
    ∧ ((exportTemperatures badValueOdb allCfg).err = some (.keyError "99")
      ∧ (∃ E, dataRecords (exportTemperatures badValueOdb allCfg).trace =
          E ++ ((([] : List (String × List FieldValue)).flatMap fun nv => nv.2.map
              (specRow (buildCoordinateCache badValueOdb.instances) 0
                (badValueStep.frames.getD 0 default).frameValue nv.1))
            ++ [(⟨"PART-1", 7, 350⟩ : FieldValue)].map
                (specRow (buildCoordinateCache badValueOdb.instances) 0
                  (badValueStep.frames.getD 0 default).frameValue "ALL")) ∧
        ∀ r ∈ E, ∃ j, j ∈ processedFrom allCfg.frameStride allCfg.startTime
            allCfg.endTime (badValueStep.frames.map OdbFrame.frameValue) 0 ∧ j < 0 ∧
          r.head? = some (Cell.nat j))
      ∧ ∀ r ∈ dataRecords (exportTemperatures badValueOdb allCfg).trace,
          r.head? = some (Cell.nat 0) →
          ¬(instOfRecord r = some "PART-1" ∧ labelOfRecord r = some 99)) :=
  ⟨rfl,
   c9_missing_coordinate badValueOdb allCfg badValueStep none 0 badValueField
     "ALL" ⟨"PART-1", 99, 351⟩ (.keyError "99") [⟨"PART-1", 7, 350⟩] [] [] []
     (by decide) rfl rfl (by decide) (by decide) rfl rfl (by simp) (by decide) rfl⟩

/-! ## C10: sanitization collisions truncate earlier regions -/

/-- File-system semantics of one event: `open(path, "w")` truncates the
file to empty, a write appends one record, closes change no content. -/
def applyFsEvent (fs : List (String × List Record)) : FsEvent → List (String × List Record)
  | .openFile p => alistSet fs p []
  | .write p r =>
    match alistGet fs p with
    | some rs => alistSet fs p (rs ++ [r])
    | none => alistSet fs p [r]
  | _ => fs

/-- The final file contents after interpreting a whole trace. -/
def runFs (trace : List FsEvent) : List (String × List Record) :=
  trace.foldl applyFsEvent []

/-- An archive with two node sets whose names sanitize identically. -/
def collideField : FieldOutput :=
  ⟨[], fun r => if r = "A B" then [⟨"PART-1", 7, 350⟩]
       else if r = "A_B" then [⟨"PART-1", 8, 351⟩] else []⟩

def collideStep : OdbStep := ⟨[⟨0, [("NT11", collideField)]⟩]⟩

def collideOdb : Odb :=
  { steps := [("HeatStep", collideStep)],
    instances := [⟨"PART-1", [⟨7, (1, 2, 3)⟩, ⟨8, (4, 5, 6)⟩]⟩],
    nodeSets := ["A B", "A_B"] }

def collideCfg : Config :=
  { odbPath := "j.odb", outputCsv := "out.csv", stepName := "HeatStep",
    nodeSets := some ["A B", "A_B"], fieldVariable := "NT11",
    startTime := none, endTime := none, frameStride := 1, splitByNodeSet := true }

/-- C10: the split-mode sanitization is not injective — the distinct region
names "A B" and "A_B" map to the same output path — and because each sink
opens its path in truncating write mode, lazily creating the second
region's sink reopens that path: the run does write a row for region
"A B" to the shared path, yet the final contents of the file hold only the
header and the "A_B" row, the "A B" rows having been destroyed. -/
theorem c10_sanitize_collision :
    ("A B" ≠ "A_B")
    ∧ sanitizeName "A B" = sanitizeName "A_B"
    ∧ regionPath collideCfg "A B" = regionPath collideCfg "A_B"
    ∧ (exportTemperatures collideOdb collideCfg).err = none
    ∧ (specRow (buildCoordinateCache collideOdb.instances) 0 0 "A B" ⟨"PART-1", 7, 350⟩
        ∈ dataRecords (exportTemperatures collideOdb collideCfg).trace)
    ∧ (FsEvent.write (regionPath collideCfg "A B")
        (specRow (buildCoordinateCache collideOdb.instances) 0 0 "A B" ⟨"PART-1", 7, 350⟩)
        ∈ (exportTemperatures collideOdb collideCfg).trace)
    ∧ alistGet (runFs (exportTemperatures collideOdb collideCfg).trace)
        (regionPath collideCfg "A B") =
      some [headerRecord "NT11",
        specRow (buildCoordinateCache collideOdb.instances) 0 0 "A_B" ⟨"PART-1", 8, 351⟩]
    ∧ ((alistGet (runFs (exportTemperatures collideOdb collideCfg).trace)
          (regionPath collideCfg "A B")).getD []).filter
        (fun r => regionOfRecord r = some "A B") = [] := by
  refine ⟨by decide, by decide, by decide, by decide, by decide, by decide,
    by decide, by decide⟩

end ShaftHeat
